import Mathlib

/-!
Verification of the `website_handler` backend (`src/backend/server.js`)
against its natural-language specification.

The JavaScript source is shallowly embedded: JS strings become Lean
`String`s (lists of characters), the regex-based scanners of the source
become explicit character-list scanners with the same matching rules,
the session map becomes an association list, and the network is an
explicit oracle argument (the fetched markup, or a failure marker).
-/

namespace WebsiteHandler

/-! ## Character and whitespace model

`isJsWS` models the character class trimmed by JavaScript
`String.prototype.trim`: ASCII whitespace, NBSP, BOM and the Unicode
space separators. -/

def isJsWS (c : Char) : Bool :=
  let n := c.toNat
  n == 9 || n == 10 || n == 11 || n == 12 || n == 13 || n == 32 ||
  n == 0xA0 || n == 0xFEFF || n == 0x1680 ||
  (0x2000 ≤ n && n ≤ 0x200A) || n == 0x2028 || n == 0x2029 ||
  n == 0x202F || n == 0x205F || n == 0x3000

/-- Right trim on character lists (drop trailing whitespace). -/
def trimR (l : List Char) : List Char :=
  (l.reverse.dropWhile isJsWS).reverse

/-- Left trim on character lists (drop leading whitespace). -/
def trimL (l : List Char) : List Char :=
  l.dropWhile isJsWS

/-- Model of JavaScript `String.prototype.trim`. -/
def jsTrim (s : String) : String :=
  ⟨trimL (trimR s.data)⟩

/-- Substring relation on Lean strings (character-list infix). -/
def substrOf (s t : String) : Prop :=
  s.data <:+: t.data

instance (s t : String) : Decidable (substrOf s t) := by
  unfold substrOf; infer_instance

/-! ## `summarizeText` (server.js line 38) -/

/-- Embeds `summarizeText`: `text.length > 300 ? text.substring(0, 300) + '…' : text`. -/
def summarizeText (text : String) : String :=
  if text.data.length > 300 then ⟨text.data.take 300⟩ ++ "…" else text

/-! ## `createPrompt` (server.js lines 119–136)

The JS function reads `knowledgeBase.designGuidelines` from a module
global; that global is an explicit argument here.  `none` models an
absent (`undefined`) `designGuidelines` field, `some gl` a present
array (a JS array is truthy even when empty).  The string sections
mirror the `prompt +=` template literals of the source. -/

/-- One `"- " + line + "\n"` bullet per entry, as emitted by the
`forEach` loops of `createPrompt`. -/
def bulletLines (xs : List String) : String :=
  String.join (xs.map (fun line => "- " ++ line ++ "\n"))

/-- The value of the `prompt` accumulator of `createPrompt` before the
final `trim()`: the four `+=` sections in source order. -/
def promptBody (description extractedContent : String)
    (designGuidelines : Option (List String)) (feedback : List String) : String :=
  (if description = "" then "" else "User description: " ++ description ++ "\n") ++
  (if extractedContent = "" then "" else
    "\nContent from source: " ++ extractedContent ++ "\n") ++
  (match designGuidelines with
    | none => ""
    | some gl => "\nDesign guidelines:\n" ++ bulletLines gl) ++
  (if feedback = [] then "" else
    "\nPlease apply these updates based on user feedback:\n" ++ bulletLines feedback)

/-- Embeds `createPrompt` from server.js: the accumulated sections,
trimmed. -/
def createPrompt (description extractedContent : String)
    (designGuidelines : Option (List String)) (feedback : List String) : String :=
  jsTrim (promptBody description extractedContent designGuidelines feedback)

/-- The `"- "`-prefixed entries joined by newlines (the bullet list as
it appears inside the prompt, without a trailing newline). -/
def bulletsI : List String → String
  | [] => ""
  | [x] => "- " ++ x
  | x :: y :: t => "- " ++ x ++ "\n" ++ bulletsI (y :: t)

/-- Does the string end in a non-whitespace character? -/
def endsNonWSb (s : String) : Bool :=
  match s.data.getLast? with
  | some c => !isJsWS c
  | none => false

/-- The last rendered bullet entry (the last feedback entry, or the
last guideline when there is no feedback) ends in a non-whitespace
character, so the final `trim()` leaves it intact. -/
def lastOkb (G F : List String) : Bool :=
  match F.getLast? with
  | some f => endsNonWSb f
  | none =>
    match G.getLast? with
    | some g => endsNonWSb g
    | none => true

/-- Line-start flag after scanning a chunk: at a line start exactly
when the chunk ends in a newline (or is empty and the flag was set). -/
def endFlag (b : Bool) (x : List Char) : Bool :=
  match x.getLast? with
  | none => b
  | some c => c == '\n'

/-! ## `evaluateSite` (server.js lines 150–194)

The regex scanners of the source are embedded as character-list
scanners with the same matching rules.  `countTags tag` models
`html.match(new RegExp('<' + tag + '[^>]*>', 'gi')).length`: at each
position, a match needs the literal `<tag` (ASCII case-insensitive)
followed by the first later `>`; matches are non-overlapping and the
scan resumes after the closing `>`. -/

/-- ASCII lower-casing, for the `i` regex flag. -/
def lowerAscii (c : Char) : Char :=
  if 65 ≤ c.toNat && c.toNat ≤ 90 then Char.ofNat (c.toNat + 32) else c

/-- Match a literal pattern ASCII-case-insensitively at the head of the
input, returning the remaining input on success. -/
def matchCI : List Char → List Char → Option (List Char)
  | [], l => some l
  | _ :: _, [] => none
  | p :: ps, c :: cs => if lowerAscii p = lowerAscii c then matchCI ps cs else none

/-- Drop through the first `>` of the input (the `[^>]*>` step),
returning the suffix after it. -/
def afterGt : List Char → Option (List Char)
  | [] => none
  | c :: cs => if c = '>' then some cs else afterGt cs

/-- Fuelled scanner counting non-overlapping matches of
`pat · [^>]* · >`; the fuel dominates the number of scan steps, each of
which consumes at least one character. -/
def countTagsAux (pat : List Char) : Nat → List Char → Nat
  | 0, _ => 0
  | _ + 1, [] => 0
  | fuel + 1, c :: cs =>
    match matchCI pat (c :: cs) with
    | some rest =>
      match afterGt rest with
      | some rest2 => 1 + countTagsAux pat fuel rest2
      | none => countTagsAux pat fuel cs
    | none => countTagsAux pat fuel cs

/-- Embeds the `countTags` helper of `evaluateSite`. -/
def countTags (tag : String) (html : String) : Nat :=
  countTagsAux ('<' :: tag.data) (html.data.length + 1) html.data

/-- JavaScript `\w` word characters. -/
def isWordChar (c : Char) : Bool :=
  let n := c.toNat
  (48 ≤ n && n ≤ 57) || (65 ≤ n && n ≤ 90) || (97 ≤ n && n ≤ 122) || n == 95

/-- Does `name=["']viewport["']` (case-insensitive, quotes independent)
match at the head of the input? -/
def viewportAt (l : List Char) : Bool :=
  match matchCI "name=".data l with
  | none => false
  | some r1 =>
    match r1 with
    | [] => false
    | q1 :: r2 =>
      if q1 = '"' || q1 = '\'' then
        match matchCI "viewport".data r2 with
        | none => false
        | some r3 =>
          match r3 with
          | [] => false
          | q2 :: _ => q2 = '"' || q2 = '\''
      else false

/-- Scanner for `/\bname=["']viewport["']/i`; `prev` is the character
before the current position, for the word-boundary test (the pattern
starts with the word character `n`, so the boundary holds exactly when
the previous character is absent or not a word character). -/
def hasViewportAux : Option Char → List Char → Bool
  | _, [] => false
  | prev, c :: cs =>
    ((match prev with | none => true | some p => !isWordChar p) && viewportAt (c :: cs)) ||
      hasViewportAux (some c) cs

/-- Embeds the `/\bname=["']viewport["']/i.test(html)` check. -/
def hasViewport (html : String) : Bool :=
  hasViewportAux none html.data

/-- Result of `evaluateSite`: `{score, report}`. -/
structure EvalResult where
  score : Nat
  report : String
deriving DecidableEq, Repr

/-- The `res.on('end')` scoring body of `evaluateSite`: sequential
score increments and report appends, `Math.min(100, score)`, and a
final `report.trim()`. -/
def evalHtml (html : String) : EvalResult :=
  let h1 := countTags "h1" html
  let h2 := countTags "h2" html
  let images := countTags "img" html
  let s1 := if h1 ≥ 1 then 30 else 0
  let r1 := if h1 ≥ 1 then "" else "Add at least one main heading.\n"
  let s2 := if h2 ≥ 2 then 20 else 0
  let r2 := if h2 ≥ 2 then "" else "Use subheadings to structure content.\n"
  let s3 := if images ≥ 1 then 20 else 0
  let r3 := if images ≥ 1 then "" else "Include images to make the page visually engaging.\n"
  let s4 := if hasViewport html then 10 else 0
  let r4 := if hasViewport html then "" else
    "Ensure the page is mobile-friendly (missing viewport meta tag).\n"
  ⟨min 100 (s1 + s2 + s3 + s4), jsTrim (r1 ++ r2 ++ r3 ++ r4)⟩

/-- Outcome of the URL parse plus network fetch performed by
`evaluateSite`: the `new url.URL` constructor throwing, the request
erroring, or markup arriving. -/
inductive FetchOutcome where
  | urlError : FetchOutcome
  | netError : FetchOutcome
  | ok : String → FetchOutcome
deriving DecidableEq

/-- Embeds `evaluateSite`: every failure path resolves (the `catch`
yields the invalid-URL diagnostic, the `req.on('error')` handler the
fetch diagnostic); markup goes through the scoring body. -/
def evaluateSite : FetchOutcome → EvalResult
  | .urlError => ⟨0, "Invalid URL for evaluation."⟩
  | .netError => ⟨0, "Failed to fetch page for evaluation."⟩
  | .ok html => evalHtml html

/-! ## `buildLovableUrl` (server.js lines 27–31)

`encodeURIComponent` is embedded byte-precisely: unreserved characters
(`A–Z a–z 0–9 - _ . ! ~ * ' ( )`) pass through, every other character
is UTF-8 encoded and each byte percent-escaped with upper-case hex
digits.  The decoding direction (used to state the round-trip claim)
parses percent escapes to bytes and UTF-8-decodes them, rejecting
malformed input. -/

/-- Characters `encodeURIComponent` leaves unescaped. -/
def uriUnreserved (c : Char) : Bool :=
  let n := c.toNat
  (65 ≤ n && n ≤ 90) || (97 ≤ n && n ≤ 122) || (48 ≤ n && n ≤ 57) ||
  n == 45 || n == 95 || n == 46 || n == 33 || n == 126 || n == 42 ||
  n == 39 || n == 40 || n == 41

/-- Upper-case hexadecimal digit for a value below 16. -/
def hexDigit (n : Nat) : Char :=
  if n < 10 then Char.ofNat (48 + n) else Char.ofNat (55 + n)

/-- UTF-8 encoding of a Unicode scalar value. -/
def utf8Bytes (n : Nat) : List Nat :=
  if n < 0x80 then [n]
  else if n < 0x800 then [0xC0 + n / 64, 0x80 + n % 64]
  else if n < 0x10000 then [0xE0 + n / 4096, 0x80 + n / 64 % 64, 0x80 + n % 64]
  else [0xF0 + n / 262144, 0x80 + n / 4096 % 64, 0x80 + n / 64 % 64, 0x80 + n % 64]

/-- A `%XX` escape for one byte. -/
def pctEncodeByte (b : Nat) : List Char :=
  ['%', hexDigit (b / 16), hexDigit (b % 16)]

/-- `encodeURIComponent` on a single character. -/
def encodeChar (c : Char) : List Char :=
  if uriUnreserved c then [c] else ((utf8Bytes c.toNat).map pctEncodeByte).flatten

/-- Embeds JavaScript `encodeURIComponent`. -/
def encodeURIComponent (s : String) : String :=
  ⟨(s.data.map encodeChar).flatten⟩

/-- Embeds `buildLovableUrl` from server.js. -/
def buildLovableUrl (prompt : String) : String :=
  let baseUrl := "https://lovable.dev/build"
  baseUrl ++ "?prompt=" ++ encodeURIComponent prompt

/-- Value of a hexadecimal digit character. -/
def hexVal (c : Char) : Option Nat :=
  let n := c.toNat
  if 48 ≤ n ∧ n ≤ 57 then some (n - 48)
  else if 65 ≤ n ∧ n ≤ 70 then some (n - 55)
  else if 97 ≤ n ∧ n ≤ 102 then some (n - 87)
  else none

/-- Percent-decoding to a byte sequence: each `%XX` escape becomes its
byte, every other character its own code; malformed escapes fail. -/
def pctDecodeBytes : List Char → Option (List Nat)
  | [] => some []
  | c :: rest =>
    if c = '%' then
      match rest with
      | h :: l :: rest2 =>
        (hexVal h).bind (fun hv => (hexVal l).bind (fun lv =>
          (pctDecodeBytes rest2).map (fun bs => (16 * hv + lv) :: bs)))
      | _ => none
    else (pctDecodeBytes rest).map (fun bs => c.toNat :: bs)

/-- Scalar value of a two-byte UTF-8 form (the lead byte is already
known to lie in `[0xC2, 0xE0)`, which rules out overlong forms). -/
def utf8Val2 (b0 b1 : Nat) : Option Nat :=
  if 0x80 ≤ b1 ∧ b1 < 0xC0 then some ((b0 - 0xC0) * 64 + (b1 - 0x80)) else none

/-- Scalar value of a three-byte UTF-8 form, rejecting overlong and
surrogate values. -/
def utf8Val3 (b0 b1 b2 : Nat) : Option Nat :=
  if 0x80 ≤ b1 ∧ b1 < 0xC0 ∧ 0x80 ≤ b2 ∧ b2 < 0xC0 then
    let n := (b0 - 0xE0) * 4096 + (b1 - 0x80) * 64 + (b2 - 0x80)
    if 0x800 ≤ n ∧ ¬ (0xD800 ≤ n ∧ n < 0xE000) then some n else none
  else none

/-- Scalar value of a four-byte UTF-8 form, rejecting overlong and
out-of-range values. -/
def utf8Val4 (b0 b1 b2 b3 : Nat) : Option Nat :=
  if 0x80 ≤ b1 ∧ b1 < 0xC0 ∧ 0x80 ≤ b2 ∧ b2 < 0xC0 ∧ 0x80 ≤ b3 ∧ b3 < 0xC0 then
    let n := (b0 - 0xF0) * 262144 + (b1 - 0x80) * 4096 + (b2 - 0x80) * 64 + (b3 - 0x80)
    if 0x10000 ≤ n ∧ n < 0x110000 then some n else none
  else none

/-- Decode one scalar value from the front of a byte sequence,
returning it with the remaining bytes; malformed input fails. -/
def utf8Step (bs : List Nat) : Option (Nat × List Nat) :=
  bs.head?.bind (fun b0 =>
    if b0 < 0x80 then some (b0, bs.drop 1)
    else if b0 < 0xC2 then none
    else if b0 < 0xE0 then
      (bs.drop 1).head?.bind (fun b1 => (utf8Val2 b0 b1).map (fun n => (n, bs.drop 2)))
    else if b0 < 0xF0 then
      (bs.drop 1).head?.bind (fun b1 => (bs.drop 2).head?.bind (fun b2 =>
        (utf8Val3 b0 b1 b2).map (fun n => (n, bs.drop 3))))
    else if b0 < 0xF5 then
      (bs.drop 1).head?.bind (fun b1 => (bs.drop 2).head?.bind (fun b2 =>
        (bs.drop 3).head?.bind (fun b3 =>
          (utf8Val4 b0 b1 b2 b3).map (fun n => (n, bs.drop 4)))))
    else none)

/-- UTF-8 decoding of a byte sequence, rejecting truncated, overlong,
surrogate and out-of-range forms. -/
def utf8Decode (bs : List Nat) : Option (List Char) :=
  match hstep : utf8Step bs with
  | none => if bs.isEmpty then some [] else none
  | some p => (utf8Decode p.2).map (fun cs => Char.ofNat p.1 :: cs)
termination_by bs.length
decreasing_by
  cases bs with
  | nil => exact absurd hstep (by simp [utf8Step])
  | cons b0 t =>
    simp only [utf8Step, List.head?_cons, Option.some_bind] at hstep
    split_ifs at hstep
    case _ =>
      rw [Option.some_inj] at hstep
      rw [← hstep]
      simp
    case _ =>
      simp only [Option.bind_eq_some, Option.map_eq_some'] at hstep
      obtain ⟨b1, hb1, n, hn, hp⟩ := hstep
      rw [← hp]
      simp [List.length_drop]
      omega
    case _ =>
      simp only [Option.bind_eq_some, Option.map_eq_some'] at hstep
      obtain ⟨b1, hb1, b2, hb2, n, hn, hp⟩ := hstep
      rw [← hp]
      simp [List.length_drop]
      omega
    case _ =>
      simp only [Option.bind_eq_some, Option.map_eq_some'] at hstep
      obtain ⟨b1, hb1, b2, hb2, b3, hb3, n, hn, hp⟩ := hstep
      rw [← hp]
      simp [List.length_drop]
      omega

/-- Percent-decoding of a full string (the inverse direction of the
round-trip claim): escapes to bytes, then UTF-8 to characters. -/
def decodeURIComponentM (s : String) : Option String :=
  (pctDecodeBytes s.data).bind (fun bs => (utf8Decode bs).map (fun cs => ⟨cs⟩))

/-! ## `fetchSimilarDesignSummaries` (server.js lines 210–249)

The anchor scan embeds the `exec` loop of the source regex
`<a[^>]*class="result__a"[^>]*>([\s\S]*?)<\/a>` with `gi` flags: a
match needs `<a`, then the literal `class="result__a"` inside the same
tag (no `>` in between), the first `>` after it, and the nearest
`</a>` after that; the captured group is the text between.  Scans are
fuelled; every step consumes at least one character, so a fuel of
`length + 1` is never exhausted. -/

/-- Split at the first `>`: the `>`-free segment before it and the
suffix after it. -/
def splitAtGt : List Char → Option (List Char × List Char)
  | [] => none
  | c :: cs =>
    if c = '>' then some ([], cs)
    else (splitAtGt cs).map (fun p => (c :: p.1, p.2))

/-- Case-insensitive substring test for a literal pattern. -/
def containsCI (pat : List Char) : List Char → Bool
  | [] => pat.isEmpty
  | c :: cs => (matchCI pat (c :: cs)).isSome || containsCI pat cs

/-- Split at the first `</a>` (case-insensitive): the lazily matched
body before it and the suffix after it. -/
def splitCloseA : List Char → Option (List Char × List Char)
  | [] => none
  | c :: cs =>
    match matchCI "</a>".data (c :: cs) with
    | some rest => some ([], rest)
    | none => (splitCloseA cs).map (fun p => (c :: p.1, p.2))

/-- Try the anchor regex at the head of the input, returning the
captured group and the suffix after the whole match. -/
def matchAnchorAt (l : List Char) : Option (List Char × List Char) :=
  match matchCI "<a".data l with
  | none => none
  | some afterA =>
    match splitAtGt afterA with
    | none => none
    | some (seg, rest1) =>
      if containsCI "class=\"result__a\"".data seg then
        match splitCloseA rest1 with
        | none => none
        | some (body, rest2) => some (body, rest2)
      else none

/-- Find the leftmost anchor match at or after the current position. -/
def nextAnchorAux : Nat → List Char → Option (List Char × List Char)
  | 0, _ => none
  | _ + 1, [] => none
  | fuel + 1, c :: cs =>
    match matchAnchorAt (c :: cs) with
    | some r => some r
    | none => nextAnchorAux fuel cs

/-- All captured anchor groups, in document order. -/
def allAnchorsAux : Nat → List Char → List (List Char)
  | 0, _ => []
  | fuel + 1, l =>
    match nextAnchorAux (l.length + 1) l with
    | none => []
    | some (body, rest) => body :: allAnchorsAux fuel rest

/-- All captured anchor groups of a results page. -/
def allAnchors (data : String) : List (List Char) :=
  allAnchorsAux (data.data.length + 1) data.data

/-- `match[1].replace(/<[^>]*>/g, '')`: drop `<…>` tag spans. -/
def stripTagsAux : Nat → List Char → List Char
  | 0, _ => []
  | _ + 1, [] => []
  | fuel + 1, c :: cs =>
    if c = '<' then
      match afterGt cs with
      | some rest => stripTagsAux fuel rest
      | none => c :: stripTagsAux fuel cs
    else c :: stripTagsAux fuel cs

/-- Tag stripping on a captured group. -/
def stripTags (l : List Char) : List Char :=
  stripTagsAux (l.length + 1) l

/-- The cleaned text of a captured group: inner markup stripped, then
trimmed. -/
def cleanSnippet (body : List Char) : String :=
  jsTrim ⟨stripTags body⟩

/-- The `while (snippets.length < 2 && (match = regex.exec(data)))`
collection loop of the source: walk the matches in order, keep the
non-empty cleaned texts, stop after two. -/
def collectLoopAux : Nat → List Char → List String → List String
  | 0, _, acc => acc
  | fuel + 1, l, acc =>
    if 2 ≤ acc.length then acc
    else
      match nextAnchorAux (l.length + 1) l with
      | none => acc
      | some (body, rest) =>
        collectLoopAux fuel rest
          (if cleanSnippet body = "" then acc else acc ++ [cleanSnippet body])

/-- The snippets collected from a results page. -/
def resultTitles (data : String) : List String :=
  collectLoopAux (data.data.length + 1) data.data []

/-- Embeds `fetchSimilarDesignSummaries`: `if (!query) return
resolve('')` happens before any request is issued, so the result for an
empty query ignores the network oracle; a request error resolves to
the empty string; otherwise the collected snippets are joined with a
newline. -/
def fetchSimilarDesignSummaries (query : String) (outcome : Option String) : String :=
  if query = "" then ""
  else
    match outcome with
    | none => ""
    | some data => String.intercalate "\n" (resultTitles data)

/-! ## Session store and the generate/feedback handlers
(server.js lines 19–20, 289–332)

The `sessions` object becomes an association list; `randomUUID()` and
the two network helpers become oracle arguments.  JavaScript
truthiness of the incoming string fields is modelled by `Option
String` plus an emptiness test (`sessionId || randomUUID()` mints a
fresh identifier for an absent **or empty** `sessionId`). -/

/-- A stored session. -/
structure Session where
  description : String
  extractedContent : String
  feedback : List String
deriving DecidableEq, Repr

/-- The in-memory session map. -/
abbrev Store := List (String × Session)

/-- `sessions[id]` lookup. -/
def lookupSession : Store → String → Option Session
  | [], _ => none
  | (k, v) :: t, id => if k = id then some v else lookupSession t id

/-- `sessions[id] = s` assignment (update in place, insert at the end
for a new key). -/
def setSession : Store → String → Session → Store
  | [], id, s => [(id, s)]
  | (k, v) :: t, id, s => if k = id then (k, s) :: t else (k, v) :: setSession t id s

/-- Response of the feedback handler: `{buildUrl}` or an error status
with an `error` field. -/
inductive FeedbackResp where
  | ok : String → FeedbackResp
  | clientError : Nat → String → FeedbackResp
deriving DecidableEq, Repr

/-- Embeds the POST `/api/feedback` handler for identifiers that do
not collide with an `Object.prototype` member name: reject a falsy or
unknown `sessionId` with 400 before touching the store, otherwise push
the feedback entry and rebuild the prompt from the updated session.
`feedbackStepJs` below keeps the prototype chain of `sessions = {}`
and agrees with this model away from the colliding names. -/
def feedbackStep (st : Store) (gl : Option (List String))
    (sessionId : Option String) (fb : String) : Store × FeedbackResp :=
  let sidOk : Option String :=
    match sessionId with
    | none => none
    | some s => if s = "" then none else some s
  match sidOk with
  | none => (st, .clientError 400 "Invalid session")
  | some sid =>
    match lookupSession st sid with
    | none => (st, .clientError 400 "Invalid session")
    | some sess =>
      let sess' : Session := { sess with feedback := sess.feedback ++ [fb] }
      let prompt := createPrompt sess'.description sess'.extractedContent gl sess'.feedback
      (setSession st sid sess', .ok (buildLovableUrl prompt))

/-- The property names a plain object `{}` inherits from
`Object.prototype`; reading any of them on `sessions = {}` yields a
function (or, for `__proto__`, the prototype object itself), which is
truthy. -/
def objectProtoKeys : List String :=
  ["constructor", "hasOwnProperty", "isPrototypeOf", "propertyIsEnumerable",
   "toLocaleString", "toString", "valueOf", "__proto__",
   "__defineGetter__", "__defineSetter__", "__lookupGetter__", "__lookupSetter__"]

/-- Truthiness of the read `sessions[id]` on the plain object
`sessions = {}`: an own key holds a session object (truthy), and
otherwise the name may still reach a truthy member through the
prototype chain. -/
def jsIndexTruthy (st : Store) (id : String) : Bool :=
  match lookupSession st id with
  | some _ => true
  | none => decide (id ∈ objectProtoKeys)

/-- Outcome of one run of the feedback handler body: either a response
was written, or a `TypeError` escaped the handler and no response was
written at all; in both cases the outcome carries the store the
handler left behind. -/
inductive HandlerOutcome where
  | responded : Store → FeedbackResp → HandlerOutcome
  | thrown : Store → HandlerOutcome
deriving DecidableEq, Repr

/-- Embeds the POST `/api/feedback` handler with the prototype chain
of `sessions = {}` kept: the guard `!sessionId || !sessions[sessionId]`
tests truthiness through the chain, so an identifier naming an
`Object.prototype` member passes the guard even when no session is
stored under it, and `sessions[sessionId].feedback.push(feedback)`
then throws (the inherited member has no `feedback` property). -/
def feedbackStepJs (st : Store) (gl : Option (List String))
    (sessionId : Option String) (fb : String) : HandlerOutcome :=
  match sessionId with
  | none => .responded st (.clientError 400 "Invalid session")
  | some sid =>
    if sid = "" then .responded st (.clientError 400 "Invalid session")
    else if jsIndexTruthy st sid then
      match lookupSession st sid with
      | some sess =>
        let sess' : Session := { sess with feedback := sess.feedback ++ [fb] }
        let prompt := createPrompt sess'.description sess'.extractedContent gl sess'.feedback
        .responded (setSession st sid sess') (.ok (buildLovableUrl prompt))
      | none => .thrown st
    else .responded st (.clientError 400 "Invalid session")

/-- Response of the generate handler. -/
structure GenResp where
  sessionId : String
  buildUrl : String
  summary : String
deriving DecidableEq, Repr

/-- Embeds the POST `/api/generate` handler.  `freshId` stands for
`randomUUID()`, `extractedOracle` for the summary
`extractContentFromUrl` resolved to, and `similarOracle` for the
snippets `fetchSimilarDesignSummaries` resolved to for a non-empty
description (for a falsy description that call returns `''`). -/
def generateStep (st : Store) (gl : Option (List String))
    (description : String) (sourceUrl : Option String) (sessionId : Option String)
    (freshId : String) (extractedOracle : String) (similarOracle : String) :
    Store × GenResp :=
  let id : String :=
    match sessionId with
    | none => freshId
    | some s => if s = "" then freshId else s
  let st1 :=
    match lookupSession st id with
    | none => setSession st id ⟨"", "", []⟩
    | some _ => st
  let sess := (lookupSession st1 id).getD ⟨"", "", []⟩
  let extractedContent : String :=
    match sourceUrl with
    | none => ""
    | some u => if u = "" then "" else extractedOracle
  let similar : String := if description = "" then "" else similarOracle
  let combined := String.intercalate "\n\n" ([extractedContent, similar].filter (· ≠ ""))
  let sess' : Session :=
    { description := description, extractedContent := combined, feedback := sess.feedback }
  let st2 := setSession st1 id sess'
  let prompt := createPrompt description combined gl sess'.feedback
  (st2, ⟨id, buildLovableUrl prompt, combined⟩)

/-- One request against the session store. -/
inductive Op where
  | generate (gl : Option (List String)) (description : String)
      (sourceUrl sessionId : Option String) (freshId extractedOracle similarOracle : String)
  | feedback (gl : Option (List String)) (sessionId : Option String) (fb : String)

/-- The store after a request. -/
def applyOp (st : Store) : Op → Store
  | .generate gl d su sid fr eo so => (generateStep st gl d su sid fr eo so).1
  | .feedback gl sid fb => (feedbackStep st gl sid fb).1

/-- The feedback sequence a store holds for an identifier (empty when
the session does not exist). -/
def feedbackOf (st : Store) (id : String) : List String :=
  ((lookupSession st id).map Session.feedback).getD []

/-! ## Line counting for the feedback-prompt claim

`dcAux` counts lines whose first character is `-`; `dsAux` counts
lines starting with the two characters `"- "`.  The flag records
whether the scan stands at the start of a line. -/

/-- Count the lines of a character list that start with `-`. -/
def dcAux : Bool → List Char → Nat
  | _, [] => 0
  | atStart, c :: cs => (if atStart && c = '-' then 1 else 0) + dcAux (c == '\n') cs

/-- Lines of a string starting with a dash. -/
def dashLineCount (s : String) : Nat :=
  dcAux true s.data

/-- Count the lines of a character list that start with `"- "`. -/
def dsAux : Bool → List Char → Nat
  | _, [] => 0
  | atStart, c :: cs =>
    (if atStart && c = '-' && cs.head? = some ' ' then 1 else 0) + dsAux (c == '\n') cs

/-- Lines of a string starting with dash-space. -/
def dashSpaceLineCount (s : String) : Nat :=
  dsAux true s.data

/-! ## String helper lemmas -/

theorem strDataAppend (s t : String) : (s ++ t).data = s.data ++ t.data := rfl

theorem strNilAppend (s : String) : "" ++ s = s := rfl

theorem strAppendNil (s : String) : s ++ "" = s := by
  cases s with
  | mk l => show String.mk (l ++ []) = ⟨l⟩; rw [List.append_nil]

theorem ws_ne_dash (c : Char) (h : isJsWS c = true) : ¬ c = '-' := by
  intro he
  subst he
  exact absurd h (by decide)

theorem ws_nl : isJsWS '\n' = true := by decide

theorem dropWhile_append_ex (p : Char → Bool) (l₁ l₂ : List Char)
    (h : ∃ c ∈ l₁, p c = false) :
    List.dropWhile p (l₁ ++ l₂) = List.dropWhile p l₁ ++ l₂ := by
  rw [List.dropWhile_append]
  rcases h with ⟨c, hc, hpc⟩
  rw [if_neg ?_]
  intro he
  rw [List.isEmpty_iff] at he
  have : c ∈ List.dropWhile p l₁ ∨ c ∈ List.takeWhile p l₁ := by
    have := List.takeWhile_append_dropWhile p l₁
    rw [← this] at hc
    rcases List.mem_append.mp hc with h | h
    · exact Or.inr h
    · exact Or.inl h
  rcases this with h | h
  · rw [he] at h
    exact absurd h (List.not_mem_nil c)
  · have := List.mem_takeWhile_imp h
    rw [this] at hpc
    cases hpc

theorem trimR_append_right (A N : List Char) (h : ∃ c ∈ N, isJsWS c = false) :
    trimR (A ++ N) = A ++ trimR N := by
  unfold trimR
  rw [List.reverse_append]
  rw [dropWhile_append_ex isJsWS N.reverse A.reverse ?_]
  · rw [List.reverse_append, List.reverse_reverse]
  · rcases h with ⟨c, hc, hpc⟩
    exact ⟨c, List.mem_reverse.mpr hc, hpc⟩

theorem trimR_append_ws (l : List Char) (c : Char) (h : isJsWS c = true) :
    trimR (l ++ [c]) = trimR l := by
  unfold trimR
  rw [List.reverse_append]
  show ((c :: l.reverse).dropWhile isJsWS).reverse = _
  rw [List.dropWhile_cons_of_pos h]

theorem trimR_eq_self_of_last (l : List Char) (c : Char)
    (hl : l.getLast? = some c) (hc : isJsWS c = false) : trimR l = l := by
  unfold trimR
  have hr : l.reverse.head? = some c := by rw [List.head?_reverse, hl]
  cases hrev : l.reverse with
  | nil => rw [hrev] at hr; cases hr
  | cons d t =>
    rw [hrev] at hr
    have hd : d = c := by cases hr; rfl
    subst hd
    rw [List.dropWhile_cons_of_neg (by rw [hc]; intro hx; cases hx), ← hrev,
      List.reverse_reverse]

theorem trimR_decomp (l : List Char) :
    ∃ d, l = trimR l ++ d ∧ ∀ c ∈ d, isJsWS c = true := by
  refine ⟨(l.reverse.takeWhile isJsWS).reverse, ?_, ?_⟩
  · unfold trimR
    rw [← List.reverse_append, List.takeWhile_append_dropWhile, List.reverse_reverse]
  · intro c hc
    rw [List.mem_reverse] at hc
    exact List.mem_takeWhile_imp hc

theorem trimR_append_all_ws (l d : List Char) (h : ∀ c ∈ d, isJsWS c = true) :
    trimR (l ++ d) = trimR l := by
  induction d using List.reverseRecOn with
  | nil => rw [List.append_nil]
  | append_singleton d c ih =>
    rw [← List.append_assoc, trimR_append_ws _ c (h c (by simp))]
    exact ih (fun x hx => h x (by simp [hx]))

theorem trimR_members (l : List Char) (c : Char) (h : c ∈ trimR l) : c ∈ l := by
  obtain ⟨d, hd, _⟩ := trimR_decomp l
  rw [hd]
  exact List.mem_append.mpr (Or.inl h)

theorem trimL_cons_nonws (c : Char) (l : List Char) (h : isJsWS c = false) :
    trimL (c :: l) = c :: l := by
  unfold trimL
  rw [List.dropWhile_cons_of_neg (by rw [h]; intro hx; cases hx)]

theorem trimL_cons_nl (l : List Char) : trimL ('\n' :: l) = trimL l := by
  unfold trimL
  rw [List.dropWhile_cons_of_pos ws_nl]

theorem strExt (s t : String) (h : s.data = t.data) : s = t := by
  cases s
  cases t
  exact congrArg String.mk h

theorem bulletLines_nil : bulletLines [] = "" := rfl

theorem bulletLines_eq (xs : List String) (h : ¬ xs = []) :
    bulletLines xs = bulletsI xs ++ "\n" := by
  induction xs with
  | nil => exact absurd rfl h
  | cons x t ih =>
    cases t with
    | nil =>
      apply strExt
      show (bulletLines [x]).data = (bulletsI [x] ++ "\n").data
      rw [strDataAppend]
      unfold bulletLines
      rw [String.data_join]
      simp [bulletsI, strDataAppend]
    | cons y t' =>
      apply strExt
      have hx : (bulletLines (x :: y :: t')).data =
          ("- " ++ x ++ "\n").data ++ (bulletLines (y :: t')).data := by
        unfold bulletLines
        rw [String.data_join, String.data_join]
        simp
      rw [hx, ih (by intro hc; cases hc)]
      show _ = (bulletsI (x :: y :: t') ++ "\n").data
      rw [show bulletsI (x :: y :: t') = "- " ++ x ++ "\n" ++ bulletsI (y :: t') from rfl]
      simp [strDataAppend]

theorem bulletLines_append_one (xs : List String) (x : String) :
    bulletLines (xs ++ [x]) = bulletLines xs ++ ("- " ++ x ++ "\n") := by
  apply strExt
  rw [strDataAppend]
  unfold bulletLines
  rw [String.data_join, String.data_join]
  simp

/-- A markup sample satisfying all four structural checks. -/
def sampleFullMarkup : String :=
  "<h1>t</h1><h2>a</h2><h2>b</h2><img src=x><meta name=\"viewport\" content=y>"

/-! ## Claim C10 -/

/-- C10: for every fetched markup the score of `evaluateSite` is the
unclamped sum of the 30/20/20/10 point awards, hence a multiple of 10
in `[0, 80]` (the `Math.min(100, ·)` clamp is never active), and the
score is 80 exactly when the report is empty. -/
theorem evaluateSite_score_structure (html : String) :
    (evaluateSite (.ok html)).score =
      (if 1 ≤ countTags "h1" html then 30 else 0) +
      (if 2 ≤ countTags "h2" html then 20 else 0) +
      (if 1 ≤ countTags "img" html then 20 else 0) +
      (if hasViewport html then 10 else 0) ∧
    (evaluateSite (.ok html)).score % 10 = 0 ∧
    (evaluateSite (.ok html)).score ≤ 80 ∧
    ((evaluateSite (.ok html)).score = 80 ↔ (evaluateSite (.ok html)).report = "") := by
  by_cases h1 : 1 ≤ countTags "h1" html <;>
    by_cases h2 : 2 ≤ countTags "h2" html <;>
      by_cases h3 : 1 ≤ countTags "img" html <;>
        by_cases h4 : hasViewport html = true <;>
          simp only [evaluateSite, evalHtml, ge_iff_le, h1, h2, h3, h4, if_true, if_false,
            Bool.false_eq_true, ite_true, ite_false] <;>
          decide

/-! ## Claim C1 (corrected: the full-markup score is 80, not 100) -/

set_option maxRecDepth 8192 in
/-- C1 (amended): markup with at least one `h1`, two `h2`, one `img`
and a viewport meta tag scores 80 (the maximum the point awards can
reach) with an empty report; markup with none of these scores 0 with
all four suggestions in check order. -/
theorem evaluateSite_full_and_bare_markup (html : String) :
    (1 ≤ countTags "h1" html → 2 ≤ countTags "h2" html → 1 ≤ countTags "img" html →
      hasViewport html = true → evaluateSite (.ok html) = ⟨80, ""⟩) ∧
    (countTags "h1" html = 0 → countTags "h2" html = 0 → countTags "img" html = 0 →
      hasViewport html = false → evaluateSite (.ok html) =
        ⟨0, "Add at least one main heading.\nUse subheadings to structure content.\nInclude images to make the page visually engaging.\nEnsure the page is mobile-friendly (missing viewport meta tag)."⟩) := by
  constructor
  · intro h1 h2 h3 h4
    simp only [evaluateSite, evalHtml, ge_iff_le, h1, h2, h3, h4, if_true, ite_true]
    decide
  · intro h1 h2 h3 h4
    have n1 : ¬ (1 ≤ countTags "h1" html) := by omega
    have n2 : ¬ (2 ≤ countTags "h2" html) := by omega
    have n3 : ¬ (1 ≤ countTags "img" html) := by omega
    simp only [evaluateSite, evalHtml, ge_iff_le, n1, n2, n3, h4, if_false,
      Bool.false_eq_true, ite_false]
    decide

/-- C1 counterexample to the claim as stated: markup passing all four
checks is scored 80, not 100. -/
theorem evaluateSite_full_markup_not_100 :
    1 ≤ countTags "h1" sampleFullMarkup ∧ 2 ≤ countTags "h2" sampleFullMarkup ∧
    1 ≤ countTags "img" sampleFullMarkup ∧ hasViewport sampleFullMarkup = true ∧
    (evaluateSite (.ok sampleFullMarkup)).score = 80 ∧
    ¬ (evaluateSite (.ok sampleFullMarkup)).score = 100 := by
  decide

/-- Witness for `evaluateSite_full_and_bare_markup` at concrete markup. -/
theorem evaluateSite_full_and_bare_markup_witness :
    (1 ≤ countTags "h1" sampleFullMarkup ∧ 2 ≤ countTags "h2" sampleFullMarkup ∧
      1 ≤ countTags "img" sampleFullMarkup ∧ hasViewport sampleFullMarkup = true ∧
      evaluateSite (.ok sampleFullMarkup) = ⟨80, ""⟩) ∧
    (countTags "h1" "" = 0 ∧ countTags "h2" "" = 0 ∧ countTags "img" "" = 0 ∧
      hasViewport "" = false ∧ evaluateSite (.ok "") =
        ⟨0, "Add at least one main heading.\nUse subheadings to structure content.\nInclude images to make the page visually engaging.\nEnsure the page is mobile-friendly (missing viewport meta tag)."⟩) :=
  ⟨⟨by decide, by decide, by decide, by decide,
    (evaluateSite_full_and_bare_markup sampleFullMarkup).1 (by decide) (by decide)
      (by decide) (by decide)⟩,
   ⟨by decide, by decide, by decide, by decide,
    (evaluateSite_full_and_bare_markup "").2 (by decide) (by decide)
      (by decide) (by decide)⟩⟩

/-! ## Claim C2 (corrected: a present-but-empty guideline array still
emits the `Design guidelines:` header, because a JavaScript array is
truthy even when empty) -/

/-- C2 (amended): with every input empty, `createPrompt` returns the
empty string when the guideline array is absent, but the bare header
`"Design guidelines:"` when an empty guideline array is present; with
empty description, content and feedback, only the guidelines section
is emitted. -/
theorem createPrompt_empty_sections :
    createPrompt "" "" none [] = "" ∧
    createPrompt "" "" (some []) [] = "Design guidelines:" ∧
    ∀ gl, createPrompt "" "" (some gl) [] = jsTrim ("\nDesign guidelines:\n" ++ bulletLines gl) := by
  refine ⟨rfl, by decide, fun gl => ?_⟩
  simp [createPrompt, promptBody, strNilAppend, strAppendNil]

/-- C2 counterexample to the claim as stated: an empty guideline list
does not give an empty prompt. -/
theorem createPrompt_empty_guidelines_not_empty :
    createPrompt "" "" (some []) [] = "Design guidelines:" ∧
    ¬ createPrompt "" "" (some []) [] = "" := by
  decide

/-! ## Claim C5 -/

/-- Guard lemma for `feedbackStep`, the prototype-chain-free model: an
absent, empty (falsy) or non-stored identifier is answered 400 with
the store unchanged.  `feedback_prototype_key_bug` below shows the
full model `feedbackStepJs` only matches this away from
`Object.prototype` member names. -/
theorem feedback_unknown_session_rejected (st : Store) (gl : Option (List String))
    (sid : Option String) (f : String)
    (h : ∀ s, sid = some s → s = "" ∨ lookupSession st s = none) :
    feedbackStep st gl sid f = (st, .clientError 400 "Invalid session") := by
  cases sid with
  | none => rfl
  | some s =>
    by_cases hs : s = ""
    · subst hs; rfl
    · rcases h s rfl with h' | h'
      · exact absurd h' hs
      · simp [feedbackStep, hs, h']

/-- C5: refuted as stated — the code has the bug the claim's wording
assumes away.  The guard `!sessions[sessionId]` (server.js line 320)
reads through the prototype chain of the plain object `sessions = {}`:
on the empty store the unknown identifier "toString" reaches the
inherited, truthy `Object.prototype.toString`, so the guard is passed
and `sessions["toString"].feedback.push(feedback)` throws a
`TypeError` — no 400 (indeed no response) is written, though the store
is still left unchanged.  Identifiers that do not collide with an
`Object.prototype` member name do get the 400 with the store
unchanged: away from the colliding names `feedbackStepJs` agrees with
`feedbackStep`, whose guard lemma covers them. -/
theorem feedback_prototype_key_bug :
    lookupSession ([] : Store) "toString" = none ∧
    feedbackStepJs [] none (some "toString") "x" = .thrown [] ∧
    feedbackStepJs [] none (some "zzz") "x" =
      .responded [] (.clientError 400 "Invalid session") ∧
    (∀ (st : Store) (gl : Option (List String)) (sid : Option String) (f : String),
      (∀ s, sid = some s → s ∉ objectProtoKeys) →
        feedbackStepJs st gl sid f =
          .responded (feedbackStep st gl sid f).1 (feedbackStep st gl sid f).2) := by
  refine ⟨rfl, by decide, by decide, ?_⟩
  intro st gl sid f hproto
  cases sid with
  | none => rfl
  | some s =>
    by_cases hs : s = ""
    · subst hs; simp [feedbackStepJs, feedbackStep]
    · cases hl : lookupSession st s with
      | some sess =>
        simp [feedbackStepJs, jsIndexTruthy, hs, hl, feedbackStep]
      | none =>
        have hcont : decide (s ∈ objectProtoKeys) = false :=
          decide_eq_false (hproto s rfl)
        simp [feedbackStepJs, jsIndexTruthy, hs, hl, hcont, feedbackStep]

/-! ## Claim C7 -/

/-- C7: every failure outcome of `evaluateSite` resolves to score 0
with a non-empty diagnostic report (one of the two fixed messages);
no failure is propagated as an exception. -/
theorem evaluateSite_failures_resolve (o : FetchOutcome)
    (h : o = .urlError ∨ o = .netError) :
    (evaluateSite o).score = 0 ∧ ¬ (evaluateSite o).report = "" ∧
    ((evaluateSite o).report = "Invalid URL for evaluation." ∨
      (evaluateSite o).report = "Failed to fetch page for evaluation.") := by
  rcases h with h | h <;> subst h
  · exact ⟨rfl, by decide, Or.inl rfl⟩
  · exact ⟨rfl, by decide, Or.inr rfl⟩

/-- Witness for `evaluateSite_failures_resolve`. -/
theorem evaluateSite_failures_resolve_witness :
    (FetchOutcome.urlError = FetchOutcome.urlError ∨
      FetchOutcome.urlError = FetchOutcome.netError) ∧
    ((evaluateSite .urlError).score = 0 ∧ ¬ (evaluateSite .urlError).report = "" ∧
      ((evaluateSite .urlError).report = "Invalid URL for evaluation." ∨
        (evaluateSite .urlError).report = "Failed to fetch page for evaluation.")) :=
  ⟨Or.inl rfl, evaluateSite_failures_resolve .urlError (Or.inl rfl)⟩

/-! ## Claim C8 -/

/-- C8: `summarizeText` truncates text longer than 300 characters to
exactly its first 300 characters plus the ellipsis marker, returns
shorter text unchanged, and its result never exceeds 301 characters
(300 plus the one-character marker). -/
theorem summarizeText_bounded (text : String) :
    (300 < text.data.length → summarizeText text = ⟨text.data.take 300⟩ ++ "…") ∧
    (text.data.length ≤ 300 → summarizeText text = text) ∧
    (summarizeText text).data.length ≤ 300 + 1 := by
  unfold summarizeText
  by_cases h : text.data.length > 300
  · rw [if_pos h]
    refine ⟨fun _ => rfl, fun hle => absurd h (by omega), ?_⟩
    have hd : ((⟨text.data.take 300⟩ : String) ++ "…").data = text.data.take 300 ++ ['…'] := rfl
    rw [hd, List.length_append, List.length_take]
    simp
  · rw [if_neg h]
    exact ⟨fun hgt => absurd hgt h, fun _ => rfl, by omega⟩

set_option maxRecDepth 8192 in
/-- Witness for `summarizeText_bounded` on a 301-character text. -/
theorem summarizeText_bounded_witness :
    300 < (String.mk (List.replicate 301 'a')).data.length ∧
    summarizeText ⟨List.replicate 301 'a'⟩ =
      ⟨(String.mk (List.replicate 301 'a')).data.take 300⟩ ++ "…" :=
  ⟨by decide, (summarizeText_bounded ⟨List.replicate 301 'a'⟩).1 (by decide)⟩

/-! ## Claim C6: encoder/decoder round trip -/

theorem charValidRange (c : Char) :
    c.toNat < 0xD800 ∨ (0xE000 ≤ c.toNat ∧ c.toNat < 0x110000) := by
  have h := c.valid
  unfold UInt32.isValidChar Nat.isValidChar at h
  rcases h with h | ⟨h1, h2⟩
  · exact Or.inl h
  · exact Or.inr ⟨h1, h2⟩

theorem charToNatLt (c : Char) : c.toNat < 0x110000 := by
  rcases charValidRange c with h | ⟨_, h⟩
  · omega
  · omega

theorem uriUnreserved_lt (c : Char) (h : uriUnreserved c = true) : c.toNat < 0x80 := by
  simp only [uriUnreserved, Bool.or_eq_true, Bool.and_eq_true, decide_eq_true_eq,
    beq_iff_eq] at h
  omega

theorem uriUnreserved_ne_pct (c : Char) (h : uriUnreserved c = true) : ¬ c = '%' := by
  intro hc
  subst hc
  exact absurd h (by decide)

theorem utf8Bytes_lt (n : Nat) (h : n < 0x110000) : ∀ b ∈ utf8Bytes n, b < 256 := by
  intro b hb
  unfold utf8Bytes at hb
  split at hb
  · simp only [List.mem_singleton] at hb; omega
  · split at hb
    · simp only [List.mem_cons, List.mem_singleton, List.not_mem_nil, or_false] at hb
      rcases hb with hb | hb <;> omega
    · split at hb
      · simp only [List.mem_cons, List.mem_singleton, List.not_mem_nil, or_false] at hb
        rcases hb with hb | hb | hb <;> omega
      · simp only [List.mem_cons, List.mem_singleton, List.not_mem_nil, or_false] at hb
        rcases hb with hb | hb | hb | hb <;> omega

theorem hexVal_hexDigit (n : Nat) (h : n < 16) : hexVal (hexDigit n) = some n := by
  interval_cases n <;> rfl

theorem pctDecodeBytes_byte (b : Nat) (h : b < 256) (tail : List Char) :
    pctDecodeBytes (pctEncodeByte b ++ tail) =
      (pctDecodeBytes tail).map (fun bs => b :: bs) := by
  show pctDecodeBytes ('%' :: hexDigit (b / 16) :: hexDigit (b % 16) :: tail) = _
  rw [pctDecodeBytes.eq_def]
  simp only [if_pos rfl, if_true, hexVal_hexDigit (b / 16) (by omega),
    hexVal_hexDigit (b % 16) (by omega), Option.some_bind, Nat.div_add_mod]

theorem pctDecodeBytes_other (c : Char) (rest : List Char) (hc : ¬ c = '%') :
    pctDecodeBytes (c :: rest) = (pctDecodeBytes rest).map (fun bs => c.toNat :: bs) := by
  rw [pctDecodeBytes.eq_def]
  simp only [if_neg hc]

theorem pctDecodeBytes_byteList (bs : List Nat) (h : ∀ b ∈ bs, b < 256) (tail : List Char) :
    pctDecodeBytes ((bs.map pctEncodeByte).flatten ++ tail) =
      (pctDecodeBytes tail).map (fun t => bs ++ t) := by
  induction bs with
  | nil =>
    simp only [List.map_nil, List.flatten_nil, List.nil_append]
    cases pctDecodeBytes tail <;> rfl
  | cons b rest ih =>
    simp only [List.map_cons, List.flatten_cons, List.append_assoc]
    rw [pctDecodeBytes_byte b (h b (List.mem_cons_self b rest)) _]
    rw [ih (fun x hx => h x (List.mem_cons_of_mem b hx))]
    cases pctDecodeBytes tail <;> rfl

theorem pctDecodeBytes_encodeChar (c : Char) (tail : List Char) :
    pctDecodeBytes (encodeChar c ++ tail) =
      (pctDecodeBytes tail).map (fun t => utf8Bytes c.toNat ++ t) := by
  by_cases hu : uriUnreserved c = true
  · have hlt : c.toNat < 0x80 := uriUnreserved_lt c hu
    have hb : utf8Bytes c.toNat = [c.toNat] := by unfold utf8Bytes; rw [if_pos hlt]
    show pctDecodeBytes ((if uriUnreserved c then [c] else _) ++ tail) = _
    rw [if_pos hu, hb]
    show pctDecodeBytes (c :: tail) = _
    rw [pctDecodeBytes_other c tail (uriUnreserved_ne_pct c hu)]
    cases pctDecodeBytes tail <;> rfl
  · show pctDecodeBytes ((if uriUnreserved c then [c] else _) ++ tail) = _
    rw [if_neg hu]
    exact pctDecodeBytes_byteList _ (utf8Bytes_lt c.toNat (charToNatLt c)) tail

theorem utf8Decode_nil : utf8Decode [] = some [] := by
  rw [utf8Decode.eq_def]
  split
  · rfl
  · next p hp => exact absurd hp (by simp [utf8Step])

theorem utf8Decode_step (bs : List Nat) (n : Nat) (rest : List Nat)
    (h : utf8Step bs = some (n, rest)) :
    utf8Decode bs = (utf8Decode rest).map (fun cs => Char.ofNat n :: cs) := by
  rw [utf8Decode.eq_def]
  split
  · next hnone => rw [h] at hnone; cases hnone
  · next p hp =>
    rw [h] at hp
    cases hp
    rfl

theorem utf8Step_bytes (n : Nat) (hval : n < 0xD800 ∨ (0xE000 ≤ n ∧ n < 0x110000))
    (tail : List Nat) :
    utf8Step (utf8Bytes n ++ tail) = some (n, tail) := by
  by_cases h1 : n < 0x80
  · have hb : utf8Bytes n = [n] := by unfold utf8Bytes; rw [if_pos h1]
    rw [hb]
    simp only [List.cons_append, List.nil_append, utf8Step, List.head?_cons,
      Option.some_bind, List.drop_succ_cons, List.drop_zero]
    rw [if_pos h1]
  · by_cases h2 : n < 0x800
    · have hb : utf8Bytes n = [0xC0 + n / 64, 0x80 + n % 64] := by
        unfold utf8Bytes; rw [if_neg h1, if_pos h2]
      rw [hb]
      simp only [List.cons_append, List.nil_append, utf8Step, List.head?_cons,
        Option.some_bind, List.drop_succ_cons, List.drop_zero]
      rw [if_neg (by omega), if_neg (by omega), if_pos (by omega)]
      simp only [List.head?_cons, Option.some_bind, utf8Val2,
        if_pos (by omega : 0x80 ≤ 0x80 + n % 64 ∧ 0x80 + n % 64 < 0xC0),
        Option.map_some]
      have hn : (0xC0 + n / 64 - 0xC0) * 64 + (0x80 + n % 64 - 0x80) = n := by omega
      rw [hn]
      rfl
    · by_cases h3 : n < 0x10000
      · have hsur : ¬ (0xD800 ≤ n ∧ n < 0xE000) := by
          rcases hval with hv | ⟨hv1, hv2⟩ <;> omega
        have hb : utf8Bytes n = [0xE0 + n / 4096, 0x80 + n / 64 % 64, 0x80 + n % 64] := by
          unfold utf8Bytes; rw [if_neg h1, if_neg h2, if_pos h3]
        rw [hb]
        simp only [List.cons_append, List.nil_append, utf8Step, List.head?_cons,
          Option.some_bind, List.drop_succ_cons, List.drop_zero]
        rw [if_neg (by omega), if_neg (by omega), if_neg (by omega), if_pos (by omega)]
        simp only [List.head?_cons, Option.some_bind, utf8Val3,
          if_pos (by omega : 0x80 ≤ 0x80 + n / 64 % 64 ∧ 0x80 + n / 64 % 64 < 0xC0 ∧
            0x80 ≤ 0x80 + n % 64 ∧ 0x80 + n % 64 < 0xC0)]
        have hn : (0xE0 + n / 4096 - 0xE0) * 4096 + (0x80 + n / 64 % 64 - 0x80) * 64 +
            (0x80 + n % 64 - 0x80) = n := by omega
        simp only [hn]
        rw [if_pos ⟨by omega, hsur⟩]
        rfl
      · have h4 : n < 0x110000 := by rcases hval with hv | ⟨_, hv⟩ <;> omega
        have hb : utf8Bytes n = [0xF0 + n / 262144, 0x80 + n / 4096 % 64,
            0x80 + n / 64 % 64, 0x80 + n % 64] := by
          unfold utf8Bytes; rw [if_neg h1, if_neg h2, if_neg h3]
        rw [hb]
        simp only [List.cons_append, List.nil_append, utf8Step, List.head?_cons,
          Option.some_bind, List.drop_succ_cons, List.drop_zero]
        rw [if_neg (by omega), if_neg (by omega), if_neg (by omega), if_neg (by omega),
          if_pos (by omega)]
        simp only [List.head?_cons, Option.some_bind, utf8Val4,
          if_pos (by omega : 0x80 ≤ 0x80 + n / 4096 % 64 ∧ 0x80 + n / 4096 % 64 < 0xC0 ∧
            0x80 ≤ 0x80 + n / 64 % 64 ∧ 0x80 + n / 64 % 64 < 0xC0 ∧
            0x80 ≤ 0x80 + n % 64 ∧ 0x80 + n % 64 < 0xC0)]
        have hn : (0xF0 + n / 262144 - 0xF0) * 262144 + (0x80 + n / 4096 % 64 - 0x80) * 4096 +
            (0x80 + n / 64 % 64 - 0x80) * 64 + (0x80 + n % 64 - 0x80) = n := by omega
        simp only [hn]
        rw [if_pos (by omega)]
        rfl

theorem utf8Decode_encodeChar (c : Char) (tail : List Nat) :
    utf8Decode (utf8Bytes c.toNat ++ tail) = (utf8Decode tail).map (fun cs => c :: cs) := by
  rw [utf8Decode_step _ c.toNat tail (utf8Step_bytes c.toNat (charValidRange c) tail)]
  rw [Char.ofNat_toNat]

theorem decode_encode_data (cs : List Char) :
    (pctDecodeBytes ((cs.map encodeChar).flatten)).bind utf8Decode = some cs := by
  induction cs with
  | nil =>
    have h0 : pctDecodeBytes (((List.nil : List Char).map encodeChar).flatten) = some [] := rfl
    rw [h0, Option.some_bind]
    exact utf8Decode_nil
  | cons c rest ih =>
    simp only [List.map_cons, List.flatten_cons]
    rw [pctDecodeBytes_encodeChar c _]
    cases hp : pctDecodeBytes ((rest.map encodeChar).flatten) with
    | none => rw [hp] at ih; exact absurd ih (by simp)
    | some bs =>
      rw [hp] at ih
      simp only [Option.some_bind] at ih
      simp only [Option.map_some', Option.some_bind]
      rw [utf8Decode_encodeChar c bs, ih]
      rfl

theorem hexDigit_not_special (m : Nat) (h : m < 16) :
    ¬ hexDigit m = '&' ∧ ¬ hexDigit m = '=' ∧ ¬ hexDigit m = '#' ∧ ¬ hexDigit m = '?' := by
  interval_cases m <;> exact ⟨by decide, by decide, by decide, by decide⟩

theorem encodeURIComponent_chars (s : String) :
    ∀ c ∈ (encodeURIComponent s).data,
      uriUnreserved c = true ∨ c = '%' ∨ ∃ m, m < 16 ∧ c = hexDigit m := by
  intro c hc
  have hc' : c ∈ (s.data.map encodeChar).flatten := hc
  rw [List.mem_flatten] at hc'
  rcases hc' with ⟨l, hl, hcl⟩
  rw [List.mem_map] at hl
  rcases hl with ⟨d, _, hdl⟩
  subst hdl
  unfold encodeChar at hcl
  by_cases hu : uriUnreserved d = true
  · rw [if_pos hu] at hcl
    simp only [List.mem_singleton] at hcl
    subst hcl
    exact Or.inl hu
  · rw [if_neg hu] at hcl
    rw [List.mem_flatten] at hcl
    rcases hcl with ⟨p, hp, hcp⟩
    rw [List.mem_map] at hp
    rcases hp with ⟨b, hb, hbp⟩
    subst hbp
    have hblt : b < 256 := utf8Bytes_lt d.toNat (charToNatLt d) b hb
    unfold pctEncodeByte at hcp
    simp only [List.mem_cons, List.mem_singleton, List.not_mem_nil, or_false] at hcp
    rcases hcp with hcp | hcp | hcp
    · exact Or.inr (Or.inl hcp)
    · exact Or.inr (Or.inr ⟨b / 16, by omega, hcp⟩)
    · exact Or.inr (Or.inr ⟨b % 16, by omega, hcp⟩)

/-- C6: `buildLovableUrl` is the fixed base endpoint followed by
`?prompt=` and the percent-encoded prompt; the encoded value contains
no query metacharacter, and percent-decoding it (escapes to bytes,
bytes through UTF-8) recovers exactly the original prompt. -/
theorem buildLovableUrl_roundtrip (prompt : String) :
    buildLovableUrl prompt =
      "https://lovable.dev/build" ++ "?prompt=" ++ encodeURIComponent prompt ∧
    List.IsPrefix ("https://lovable.dev/build").data (buildLovableUrl prompt).data ∧
    decodeURIComponentM (encodeURIComponent prompt) = some prompt ∧
    (∀ c ∈ (encodeURIComponent prompt).data,
      ¬ c = '&' ∧ ¬ c = '=' ∧ ¬ c = '#' ∧ ¬ c = '?') := by
  refine ⟨rfl, ?_, ?_, ?_⟩
  · show List.IsPrefix ("https://lovable.dev/build").data
      ((("https://lovable.dev/build").data ++ ("?prompt=").data) ++
        (encodeURIComponent prompt).data)
    rw [List.append_assoc]
    exact List.prefix_append _ _
  · unfold decodeURIComponentM
    have h := decode_encode_data prompt.data
    cases hp : pctDecodeBytes (encodeURIComponent prompt).data with
    | none =>
      rw [show (encodeURIComponent prompt).data = (prompt.data.map encodeChar).flatten from rfl]
        at hp
      rw [hp] at h
      exact absurd h (by simp)
    | some bs =>
      rw [show (encodeURIComponent prompt).data = (prompt.data.map encodeChar).flatten from rfl]
        at hp
      rw [hp] at h
      simp only [Option.some_bind] at h
      simp only [Option.some_bind]
      rw [h]
      show some (String.mk prompt.data) = some prompt
      rfl
  · intro c hc
    rcases encodeURIComponent_chars prompt c hc with h | h | ⟨m, hm, hcm⟩
    · refine ⟨?_, ?_, ?_, ?_⟩ <;> intro he <;> subst he <;> exact absurd h (by decide)
    · subst h
      exact ⟨by decide, by decide, by decide, by decide⟩
    · subst hcm
      exact hexDigit_not_special m hm

/-- Witness for `buildLovableUrl_roundtrip` on a concrete prompt. -/
theorem buildLovableUrl_roundtrip_witness :
    decodeURIComponentM (encodeURIComponent "a b&c") = some "a b&c" :=
  (buildLovableUrl_roundtrip "a b&c").2.2.1

/-! ## Claim C9 -/

theorem collectLoopAux_spec (fuel : Nat) :
    ∀ (l : List Char) (acc : List String), acc.length ≤ 2 →
      collectLoopAux fuel l acc =
        acc ++ (((allAnchorsAux fuel l).map cleanSnippet).filter
          (fun s => s ≠ "")).take (2 - acc.length) := by
  induction fuel with
  | zero =>
    intro l acc _
    simp [collectLoopAux, allAnchorsAux]
  | succ fuel ih =>
    intro l acc hacc
    rw [collectLoopAux, allAnchorsAux]
    by_cases h2 : 2 ≤ acc.length
    · rw [if_pos h2]
      have : 2 - acc.length = 0 := by omega
      rw [this]
      simp
    · rw [if_neg h2]
      cases hna : nextAnchorAux (l.length + 1) l with
      | none => simp
      | some r =>
        obtain ⟨body, rest⟩ := r
        show collectLoopAux fuel rest
            (if cleanSnippet body = "" then acc else acc ++ [cleanSnippet body]) =
          acc ++ (((body :: allAnchorsAux fuel rest).map cleanSnippet).filter
            (fun s => s ≠ "")).take (2 - acc.length)
        by_cases hclean : cleanSnippet body = ""
        · rw [if_pos hclean]
          rw [ih rest acc hacc]
          simp only [List.map_cons, List.filter_cons, hclean]
          norm_num
        · rw [if_neg hclean]
          rw [ih rest (acc ++ [cleanSnippet body]) (by simp; omega)]
          simp only [List.map_cons, List.filter_cons]
          rw [if_pos (by simp [hclean])]
          have hlen : acc.length < 2 := by omega
          have htake : (cleanSnippet body ::
              ((allAnchorsAux fuel rest).map cleanSnippet).filter (fun s => s ≠ "")).take
                (2 - acc.length) =
              cleanSnippet body ::
                (((allAnchorsAux fuel rest).map cleanSnippet).filter (fun s => s ≠ "")).take
                  (2 - (acc ++ [cleanSnippet body]).length) := by
            have h1 : 2 - acc.length = (2 - (acc ++ [cleanSnippet body]).length) + 1 := by
              simp
              omega
            rw [h1, List.take_succ_cons]
          rw [htake]
          simp

/-- C9: the snippet search returns the empty string immediately for an
empty query whatever the network would have answered, returns the
empty string on any fetch failure, and otherwise joins with a newline
the first (at most) two non-empty cleaned result titles of the page,
in document order; the collected titles are never more than two and
never empty. -/
theorem fetchSimilar_properties :
    (∀ o, fetchSimilarDesignSummaries "" o = "") ∧
    (∀ q, fetchSimilarDesignSummaries q none = "") ∧
    (∀ q data, ¬ q = "" → fetchSimilarDesignSummaries q (some data) =
      String.intercalate "\n"
        ((((allAnchors data).map cleanSnippet).filter (fun s => s ≠ "")).take 2)) ∧
    (∀ data, (resultTitles data).length ≤ 2 ∧ ∀ s ∈ resultTitles data, ¬ s = "") := by
  have hres : ∀ data : String, resultTitles data =
      (((allAnchors data).map cleanSnippet).filter (fun s => s ≠ "")).take 2 := by
    intro data
    unfold resultTitles allAnchors
    rw [collectLoopAux_spec (data.data.length + 1) data.data [] (by simp)]
    simp
  refine ⟨fun o => rfl, ?_, ?_, ?_⟩
  · intro q
    unfold fetchSimilarDesignSummaries
    by_cases hq : q = "" <;> simp [hq]
  · intro q data hq
    unfold fetchSimilarDesignSummaries
    rw [if_neg hq]
    show String.intercalate "\n" (resultTitles data) = _
    rw [hres data]
  · intro data
    constructor
    · rw [hres data]
      exact le_trans (List.length_take_le _ _) (le_refl 2)
    · intro s hs
      rw [hres data] at hs
      have hs' := List.take_subset _ _ hs
      rw [List.mem_filter] at hs'
      have := hs'.2
      simpa using this

/-- Witness for `fetchSimilar_properties` on a concrete results page
with three non-empty titles (only the first two are collected, markup
inside the first is stripped). -/
theorem fetchSimilar_properties_witness :
    ¬ ("bakery" : String) = "" ∧
    fetchSimilarDesignSummaries "bakery"
      (some "<a class=\"result__a\">Alpha <b>Site</b></a><a class=\"result__a\"> </a><a class=\"result__a\">Beta</a><a class=\"result__a\">Gamma</a>") =
      String.intercalate "\n"
        ((((allAnchors "<a class=\"result__a\">Alpha <b>Site</b></a><a class=\"result__a\"> </a><a class=\"result__a\">Beta</a><a class=\"result__a\">Gamma</a>").map
          cleanSnippet).filter (fun s => s ≠ "")).take 2) :=
  ⟨by decide,
   fetchSimilar_properties.2.2.1 "bakery"
     "<a class=\"result__a\">Alpha <b>Site</b></a><a class=\"result__a\"> </a><a class=\"result__a\">Beta</a><a class=\"result__a\">Gamma</a>"
     (by decide)⟩

/-! ## Claim C3 (corrected: the final `trim()` strips trailing
whitespace from the last rendered bullet line, so an element ending in
whitespace need not appear verbatim) -/

theorem jsTrim_data (s : String) : (jsTrim s).data = trimL (trimR s.data) := rfl

theorem promptBody_some (d ec : String) (gl fb : List String) :
    promptBody d ec (some gl) fb =
      (if d = "" then "" else "User description: " ++ d ++ "\n") ++
      (if ec = "" then "" else "\nContent from source: " ++ ec ++ "\n") ++
      ("\nDesign guidelines:\n" ++ bulletLines gl) ++
      (if fb = [] then ""
       else "\nPlease apply these updates based on user feedback:\n" ++ bulletLines fb) := rfl

theorem bulletsI_head_mem (X : List String) (h : ¬ X = []) : '-' ∈ (bulletsI X).data := by
  cases X with
  | nil => exact absurd rfl h
  | cons x t =>
    cases t with
    | nil =>
      show '-' ∈ ("- " ++ x).data
      rw [strDataAppend]
      exact List.mem_append.mpr (Or.inl (by decide))
    | cons y t' =>
      show '-' ∈ ("- " ++ x ++ "\n" ++ bulletsI (y :: t')).data
      rw [strDataAppend, strDataAppend, strDataAppend]
      exact List.mem_append.mpr (Or.inl (List.mem_append.mpr (Or.inl
        (List.mem_append.mpr (Or.inl (by decide))))))

theorem bulletsI_last (X : List String) (x : String) (hx : X.getLast? = some x)
    (h : endsNonWSb x = true) :
    ∃ c, (bulletsI X).data.getLast? = some c ∧ isJsWS c = false := by
  induction X with
  | nil => cases hx
  | cons a t ih =>
    cases t with
    | nil =>
      have hax : a = x := by
        have : ([a] : List String).getLast? = some a := rfl
        rw [this] at hx
        cases hx
        rfl
      subst hax
      unfold endsNonWSb at h
      cases hla : a.data.getLast? with
      | none => rw [hla] at h; cases h
      | some c =>
        rw [hla] at h
        refine ⟨c, ?_, by simpa using h⟩
        show (("- " ++ a)).data.getLast? = some c
        rw [strDataAppend,
          List.getLast?_append_of_ne_nil _ (by intro he; rw [he] at hla; cases hla)]
        exact hla
    | cons b t' =>
      have hx' : (b :: t').getLast? = some x := by
        rw [← hx]
        rfl
      obtain ⟨c, hc1, hc2⟩ := ih hx'
      refine ⟨c, ?_, hc2⟩
      show ("- " ++ a ++ "\n" ++ bulletsI (b :: t')).data.getLast? = some c
      rw [strDataAppend,
        List.getLast?_append_of_ne_nil _ (by intro he; rw [he] at hc1; cases hc1)]
      exact hc1

theorem uDataHead : "User description: ".data = 'U' :: "ser description: ".data := rfl

theorem wsU : isJsWS 'U' = false := by decide

/-- C3 (amended): for every non-empty description `D`, guideline list
`G` and feedback list `F` whose last rendered entry does not end in
whitespace, the prompt built with empty extracted content contains
`"User description: " ++ D`, contains the guideline bullet block
(every element of `G` prefixed `"- "` on its own line, in stored
order), and, when `F` is non-empty, contains the feedback bullet block
(every element of `F` prefixed `"- "`, in arrival order).  Without the
trailing-whitespace proviso the final `trim()` can clip the last
bullet, refuting the claim as stated. -/
theorem createPrompt_contains_sections (D : String) (G F : List String)
    (hD : ¬ D = "") (hLast : lastOkb G F = true) :
    substrOf ("User description: " ++ D) (createPrompt D "" (some G) F) ∧
    substrOf (bulletsI G) (createPrompt D "" (some G) F) ∧
    (¬ F = [] → substrOf (bulletsI F) (createPrompt D "" (some G) F)) := by
  by_cases hF : F = []
  · subst hF
    by_cases hG : G = []
    · subst hG
      have hb : promptBody D "" (some []) [] =
          ("User description: " ++ D ++ "\n") ++ "\nDesign guidelines:\n" := by
        rw [promptBody_some, if_neg hD, if_pos rfl, if_pos rfl, bulletLines_nil,
          strAppendNil, strAppendNil, strAppendNil]
      have hdata : (createPrompt D "" (some []) []).data =
          "User description: ".data ++ D.data ++ ['\n'] ++ "\nDesign guidelines:".data := by
        show (jsTrim (promptBody D "" (some []) [])).data = _
        rw [jsTrim_data, hb]
        have h1 : (("User description: " ++ D ++ "\n") ++ "\nDesign guidelines:\n").data =
            ("User description: ".data ++ D.data ++ ['\n'] ++ "\nDesign guidelines:".data)
              ++ ['\n'] := by
          simp [strDataAppend]
        rw [h1, trimR_append_ws _ '\n' ws_nl,
          trimR_append_right _ "\nDesign guidelines:".data ⟨'D', by decide, by decide⟩,
          show trimR "\nDesign guidelines:".data = "\nDesign guidelines:".data by decide]
        rw [uDataHead]
        simp only [List.cons_append]
        rw [trimL_cons_nonws 'U' _ wsU]
      refine ⟨?_, ?_, fun hc => absurd rfl hc⟩
      · show ("User description: " ++ D).data <:+: _
        rw [hdata, strDataAppend]
        exact ⟨[], ['\n'] ++ "\nDesign guidelines:".data, by simp⟩
      · show (bulletsI []).data <:+: _
        exact List.nil_infix
    · have hg : ∃ g, G.getLast? = some g := by
        cases hgl : G.getLast? with
        | none => exact absurd (List.getLast?_eq_none_iff.mp hgl) hG
        | some g => exact ⟨g, rfl⟩
      obtain ⟨g, hg⟩ := hg
      have hge : endsNonWSb g = true := by
        unfold lastOkb at hLast
        rw [show (([] : List String).getLast?) = none from rfl, hg] at hLast
        exact hLast
      obtain ⟨c, hc1, hc2⟩ := bulletsI_last G g hg hge
      have hb : promptBody D "" (some G) [] =
          ("User description: " ++ D ++ "\n") ++
            ("\nDesign guidelines:\n" ++ (bulletsI G ++ "\n")) := by
        rw [promptBody_some, if_neg hD, if_pos rfl, if_pos rfl, bulletLines_eq G hG,
          strAppendNil, strAppendNil, String.append_assoc]
      have hdata : (createPrompt D "" (some G) []).data =
          "User description: ".data ++ D.data ++ ['\n'] ++ "\nDesign guidelines:\n".data ++
            (bulletsI G).data := by
        show (jsTrim (promptBody D "" (some G) [])).data = _
        rw [jsTrim_data, hb]
        have h1 : (("User description: " ++ D ++ "\n") ++
            ("\nDesign guidelines:\n" ++ (bulletsI G ++ "\n"))).data =
            ("User description: ".data ++ D.data ++ ['\n'] ++ "\nDesign guidelines:\n".data ++
              (bulletsI G).data) ++ ['\n'] := by
          simp [strDataAppend]
        rw [h1, trimR_append_ws _ '\n' ws_nl,
          trimR_append_right _ (bulletsI G).data ⟨'-', bulletsI_head_mem G hG, by decide⟩,
          trimR_eq_self_of_last _ c hc1 hc2]
        rw [uDataHead]
        simp only [List.cons_append]
        rw [trimL_cons_nonws 'U' _ wsU]
      refine ⟨?_, ?_, fun hc => absurd rfl hc⟩
      · show ("User description: " ++ D).data <:+: _
        rw [hdata, strDataAppend]
        exact ⟨[], ['\n'] ++ "\nDesign guidelines:\n".data ++ (bulletsI G).data, by simp⟩
      · show (bulletsI G).data <:+: _
        rw [hdata]
        exact ⟨"User description: ".data ++ D.data ++ ['\n'] ++ "\nDesign guidelines:\n".data,
          [], by simp⟩
  · have hf : ∃ f, F.getLast? = some f := by
      cases hfl : F.getLast? with
      | none => exact absurd (List.getLast?_eq_none_iff.mp hfl) hF
      | some f => exact ⟨f, rfl⟩
    obtain ⟨f, hf⟩ := hf
    have hfe : endsNonWSb f = true := by
      unfold lastOkb at hLast
      rw [hf] at hLast
      exact hLast
    obtain ⟨c, hc1, hc2⟩ := bulletsI_last F f hf hfe
    have hb : promptBody D "" (some G) F =
        ("User description: " ++ D ++ "\n") ++
          (("\nDesign guidelines:\n" ++ bulletLines G) ++
            ("\nPlease apply these updates based on user feedback:\n" ++
              (bulletsI F ++ "\n"))) := by
      rw [promptBody_some, if_neg hD, if_pos rfl, if_neg hF, bulletLines_eq F hF,
        strAppendNil, String.append_assoc]
    have hdata : (createPrompt D "" (some G) F).data =
        "User description: ".data ++ D.data ++ ['\n'] ++ "\nDesign guidelines:\n".data ++
          (bulletLines G).data ++
            "\nPlease apply these updates based on user feedback:\n".data ++
              (bulletsI F).data := by
      show (jsTrim (promptBody D "" (some G) F)).data = _
      rw [jsTrim_data, hb]
      have h1 : (("User description: " ++ D ++ "\n") ++
          (("\nDesign guidelines:\n" ++ bulletLines G) ++
            ("\nPlease apply these updates based on user feedback:\n" ++
              (bulletsI F ++ "\n")))).data =
          ("User description: ".data ++ D.data ++ ['\n'] ++ "\nDesign guidelines:\n".data ++
            (bulletLines G).data ++
              "\nPlease apply these updates based on user feedback:\n".data ++
                (bulletsI F).data) ++ ['\n'] := by
        simp [strDataAppend]
      rw [h1, trimR_append_ws _ '\n' ws_nl,
        trimR_append_right _ (bulletsI F).data ⟨'-', bulletsI_head_mem F hF, by decide⟩,
        trimR_eq_self_of_last _ c hc1 hc2]
      rw [uDataHead]
      simp only [List.cons_append]
      rw [trimL_cons_nonws 'U' _ wsU]
    refine ⟨?_, ?_, fun _ => ?_⟩
    · show ("User description: " ++ D).data <:+: _
      rw [hdata, strDataAppend]
      exact ⟨[], ['\n'] ++ "\nDesign guidelines:\n".data ++ (bulletLines G).data ++
        "\nPlease apply these updates based on user feedback:\n".data ++ (bulletsI F).data,
        by simp⟩
    · by_cases hG : G = []
      · subst hG
        exact List.nil_infix
      · show (bulletsI G).data <:+: _
        rw [hdata, bulletLines_eq G hG, strDataAppend]
        exact ⟨"User description: ".data ++ D.data ++ ['\n'] ++
          "\nDesign guidelines:\n".data,
          "\n".data ++ "\nPlease apply these updates based on user feedback:\n".data ++
            (bulletsI F).data, by simp⟩
    · show (bulletsI F).data <:+: _
      rw [hdata]
      exact ⟨"User description: ".data ++ D.data ++ ['\n'] ++ "\nDesign guidelines:\n".data ++
        (bulletLines G).data ++
          "\nPlease apply these updates based on user feedback:\n".data, [], by simp⟩

/-- C3 counterexample to the claim as stated: with guideline list
`["x "]` (trailing space) and no feedback, the trimmed prompt ends in
`"- x"`, so the element `"x "` does not appear prefixed by `"- "`. -/
theorem createPrompt_trailing_space_clipped :
    ¬ ("d" : String) = "" ∧
    ¬ substrOf (bulletsI ["x "]) (createPrompt "d" "" (some ["x "]) []) := by
  constructor
  · decide
  · show ¬ ("- x ".data <:+: (createPrompt "d" "" (some ["x "]) []).data)
    decide

/-- Witness for `createPrompt_contains_sections` at concrete inputs. -/
theorem createPrompt_contains_sections_witness :
    ¬ ("a shop" : String) = "" ∧ lastOkb ["g1", "g2"] ["f1"] = true ∧
    (substrOf ("User description: " ++ "a shop")
        (createPrompt "a shop" "" (some ["g1", "g2"]) ["f1"]) ∧
      substrOf (bulletsI ["g1", "g2"])
        (createPrompt "a shop" "" (some ["g1", "g2"]) ["f1"]) ∧
      (¬ (["f1"] : List String) = [] → substrOf (bulletsI ["f1"])
        (createPrompt "a shop" "" (some ["g1", "g2"]) ["f1"]))) :=
  ⟨by decide, by decide,
   createPrompt_contains_sections "a shop" ["g1", "g2"] ["f1"] (by decide) (by decide)⟩

/-! ## Claim C4: dash-line counting under the final trim -/

theorem endFlag_nil (b : Bool) : endFlag b [] = b := rfl

theorem endFlag_cons (b : Bool) (c : Char) (t : List Char) :
    endFlag b (c :: t) = endFlag (c == '\n') t := by
  cases t with
  | nil => rfl
  | cons d t' => rfl

theorem dcAux_append (x : List Char) : ∀ (b : Bool) (y : List Char),
    dcAux b (x ++ y) = dcAux b x + dcAux (endFlag b x) y := by
  induction x with
  | nil => intro b y; simp [dcAux, endFlag_nil]
  | cons c t ih =>
    intro b y
    show dcAux b (c :: (t ++ y)) = dcAux b (c :: t) + dcAux (endFlag b (c :: t)) y
    rw [dcAux, dcAux, ih (c == '\n') y, endFlag_cons]
    omega

theorem dcAux_zero (l : List Char) (h : ∀ c ∈ l, ¬ c = '-') : ∀ b, dcAux b l = 0 := by
  induction l with
  | nil => intro b; rfl
  | cons c t ih =>
    intro b
    rw [dcAux]
    rw [ih (fun x hx => h x (List.mem_cons_of_mem c hx))]
    have hc : ¬ c = '-' := h c (List.mem_cons_self c t)
    simp [hc]

theorem dcAux_false_no_nl (l : List Char) (h : ¬ '\n' ∈ l) : dcAux false l = 0 := by
  induction l with
  | nil => rfl
  | cons c t ih =>
    rw [dcAux]
    have hc : ¬ c = '\n' := fun he => h (he ▸ List.mem_cons_self c t)
    have : (c == '\n') = false := by simp [hc]
    rw [this, ih (fun hm => h (List.mem_cons_of_mem c hm))]
    simp

theorem dropWhile_ne_nil_of_ex (p : Char → Bool) (l : List Char)
    (h : ∃ c ∈ l, p c = false) : ¬ List.dropWhile p l = [] := by
  intro he
  rcases h with ⟨c, hc, hpc⟩
  have hl := List.takeWhile_append_dropWhile p l
  rw [he, List.append_nil] at hl
  rw [← hl] at hc
  have := List.mem_takeWhile_imp hc
  rw [this] at hpc
  cases hpc

theorem trimL_getLast? (l : List Char) (h : ¬ trimL l = []) :
    (trimL l).getLast? = l.getLast? := by
  unfold trimL at h ⊢
  conv_rhs => rw [← List.takeWhile_append_dropWhile isJsWS l]
  rw [List.getLast?_append_of_ne_nil _ h]

theorem trimR_cons_nonws (c : Char) (l : List Char) (hc : isJsWS c = false) :
    trimR (c :: l) = c :: trimR l := by
  obtain ⟨d, hd, hdws⟩ := trimR_decomp l
  conv_lhs => rw [hd]
  rw [show c :: (trimR l ++ d) = (c :: trimR l) ++ d from rfl,
    trimR_append_all_ws _ d hdws]
  by_cases htr : trimR l = []
  · rw [htr]
    exact trimR_eq_self_of_last [c] c rfl hc
  · obtain ⟨e, he⟩ : ∃ e, (trimR l).getLast? = some e := by
      cases hx : (trimR l).getLast? with
      | none => exact absurd (List.getLast?_eq_none_iff.mp hx) htr
      | some e => exact ⟨e, rfl⟩
    have hews : isJsWS e = false := by
      unfold trimR at he
      rw [List.getLast?_reverse] at he
      cases hdw : List.dropWhile isJsWS l.reverse with
      | nil => rw [hdw] at he; cases he
      | cons a t =>
        rw [hdw] at he
        have ha : a = e := by cases he; rfl
        subst ha
        have := List.head?_dropWhile_not isJsWS l.reverse
        rw [hdw] at this
        simpa using this
    exact trimR_eq_self_of_last _ e
      (by show ([c] ++ trimR l).getLast? = some e
          rw [List.getLast?_append_of_ne_nil _ htr]; exact he) hews

theorem trimR_no_nl (f : List Char) (h : ¬ '\n' ∈ f) : ¬ '\n' ∈ trimR f :=
  fun hm => h (trimR_members f '\n' hm)

/-- The trimmed trailing bullet `"- " ++ f ++ "\n"` contributes exactly
one dash-started line when `f` holds no newline. -/
theorem dc_trimmed_bullet (f : String) (hnl : ¬ '\n' ∈ f.data) :
    dcAux true (trimR ('-' :: ' ' :: f.data ++ ['\n'])) = 1 := by
  have h1 : trimR ('-' :: ' ' :: f.data ++ ['\n']) = '-' :: trimR (' ' :: f.data) := by
    rw [show ('-' :: ' ' :: f.data ++ ['\n'] : List Char) =
      '-' :: ((' ' :: f.data) ++ ['\n']) from rfl]
    rw [trimR_cons_nonws '-' _ (by decide), trimR_append_ws _ '\n' ws_nl]
  rw [h1, dcAux]
  have hno : ¬ '\n' ∈ trimR (' ' :: f.data) := by
    intro hm
    have := trimR_members _ '\n' hm
    rcases List.mem_cons.mp this with h | h
    · cases h
    · exact hnl h
  rw [show (('-' : Char) == '\n') = false from rfl, dcAux_false_no_nl _ hno]
  decide

theorem promptBody_append_fb_nil (d ec : String) (gl : Option (List String)) (f : String) :
    promptBody d ec gl [f] = promptBody d ec gl [] ++
      ("\nPlease apply these updates based on user feedback:\n" ++ ("- " ++ f ++ "\n")) := by
  apply strExt
  unfold promptBody
  rw [if_neg (List.cons_ne_nil f []), if_pos rfl]
  simp only [strDataAppend, String.data_join, bulletLines]
  simp [List.append_assoc]

theorem promptBody_append_fb_cons (d ec : String) (gl : Option (List String))
    (fb : List String) (hfb : ¬ fb = []) (f : String) :
    promptBody d ec gl (fb ++ [f]) = promptBody d ec gl fb ++ ("- " ++ f ++ "\n") := by
  apply strExt
  have hne : ¬ (fb ++ [f] : List String) = [] := by
    intro h
    rcases List.append_eq_nil.mp h with ⟨h1, _⟩
    exact hfb h1
  unfold promptBody
  rw [if_neg hne, if_neg hfb, bulletLines_append_one]
  simp only [strDataAppend]
  simp [List.append_assoc]

theorem endNl_append (a b : String)
    (ha : a = "" ∨ a.data.getLast? = some '\n')
    (hb : b = "" ∨ b.data.getLast? = some '\n') :
    a ++ b = "" ∨ (a ++ b).data.getLast? = some '\n' := by
  rcases hb with hb | hb
  · subst hb
    rw [strAppendNil]
    exact ha
  · right
    rw [strDataAppend, List.getLast?_append_of_ne_nil _ ?_]
    · exact hb
    · intro he
      rw [he] at hb
      cases hb

theorem promptBody_endNl (d ec : String) (gl : Option (List String)) (fb : List String) :
    promptBody d ec gl fb = "" ∨ (promptBody d ec gl fb).data.getLast? = some '\n' := by
  unfold promptBody
  refine endNl_append _ _ (endNl_append _ _ (endNl_append _ _ ?_ ?_) ?_) ?_
  · by_cases hd : d = ""
    · rw [if_pos hd]; exact Or.inl rfl
    · rw [if_neg hd]
      right
      rw [strDataAppend, List.getLast?_append_of_ne_nil _ (by intro h; cases h)]
      rfl
  · by_cases hec : ec = ""
    · rw [if_pos hec]; exact Or.inl rfl
    · rw [if_neg hec]
      right
      rw [strDataAppend, List.getLast?_append_of_ne_nil _ (by intro h; cases h)]
      rfl
  · cases gl with
    | none => exact Or.inl rfl
    | some g =>
      right
      show ("\nDesign guidelines:\n" ++ bulletLines g).data.getLast? = some '\n'
      by_cases hg : g = []
      · subst hg
        rw [bulletLines_nil, strAppendNil]
        decide
      · rw [bulletLines_eq g hg, strDataAppend, strDataAppend,
          List.getLast?_append_of_ne_nil _ (by
            intro h
            rcases List.append_eq_nil.mp h with ⟨_, h2⟩
            exact absurd h2 (by decide)),
          List.getLast?_append_of_ne_nil _ (by decide)]
        decide
  · by_cases hfb : fb = []
    · rw [if_pos hfb]; exact Or.inl rfl
    · rw [if_neg hfb]
      right
      rw [bulletLines_eq fb hfb, strDataAppend, strDataAppend,
        List.getLast?_append_of_ne_nil _ (by
          intro h
          rcases List.append_eq_nil.mp h with ⟨_, h2⟩
          exact absurd h2 (by decide)),
        List.getLast?_append_of_ne_nil _ (by decide)]
      decide

theorem nonws_append (a b : String)
    (ha : a = "" ∨ ∃ c ∈ a.data, isJsWS c = false)
    (hb : b = "" ∨ ∃ c ∈ b.data, isJsWS c = false) :
    a ++ b = "" ∨ ∃ c ∈ (a ++ b).data, isJsWS c = false := by
  rcases ha with ha | ⟨c, hc, hcw⟩
  · subst ha
    rw [strNilAppend]
    exact hb
  · right
    exact ⟨c, by rw [strDataAppend]; exact List.mem_append.mpr (Or.inl hc), hcw⟩

theorem promptBody_nonws (d ec : String) (gl : Option (List String)) (fb : List String) :
    promptBody d ec gl fb = "" ∨
      ∃ c ∈ (promptBody d ec gl fb).data, isJsWS c = false := by
  unfold promptBody
  refine nonws_append _ _ (nonws_append _ _ (nonws_append _ _ ?_ ?_) ?_) ?_
  · by_cases hd : d = ""
    · rw [if_pos hd]; exact Or.inl rfl
    · rw [if_neg hd]
      right
      refine ⟨'U', ?_, by decide⟩
      rw [strDataAppend, strDataAppend]
      exact List.mem_append.mpr (Or.inl (List.mem_append.mpr (Or.inl (by decide))))
  · by_cases hec : ec = ""
    · rw [if_pos hec]; exact Or.inl rfl
    · rw [if_neg hec]
      right
      refine ⟨'C', ?_, by decide⟩
      rw [strDataAppend, strDataAppend]
      exact List.mem_append.mpr (Or.inl (List.mem_append.mpr (Or.inl (by decide))))
  · cases gl with
    | none => exact Or.inl rfl
    | some g =>
      right
      show ∃ c ∈ ("\nDesign guidelines:\n" ++ bulletLines g).data, isJsWS c = false
      refine ⟨'D', ?_, by decide⟩
      rw [strDataAppend]
      exact List.mem_append.mpr (Or.inl (by decide))
  · by_cases hfb : fb = []
    · rw [if_pos hfb]; exact Or.inl rfl
    · rw [if_neg hfb]
      right
      refine ⟨'P', ?_, by decide⟩
      rw [strDataAppend]
      exact List.mem_append.mpr (Or.inl (by decide))

theorem promptBody_empty_fb (d ec : String) (gl : Option (List String)) (fb : List String)
    (h : promptBody d ec gl fb = "") : fb = [] := by
  by_contra hfb
  have hd := congrArg String.data h
  unfold promptBody at hd
  rw [if_neg hfb] at hd
  rw [strDataAppend] at hd
  rcases List.append_eq_nil.mp hd with ⟨_, h4⟩
  rw [strDataAppend] at h4
  rcases List.append_eq_nil.mp h4 with ⟨h5, _⟩
  cases h5

theorem endFlag_of_last_nl (b : Bool) (l : List Char) (h : l.getLast? = some '\n') :
    endFlag b l = true := by
  unfold endFlag
  rw [h]
  rfl

theorem dc_before_after (A N : String) (hA : ¬ A = "")
    (hAnl : A.data.getLast? = some '\n')
    (hAnonws : ∃ c ∈ A.data, isJsWS c = false)
    (hNmem : '-' ∈ N.data)
    (hNdc : dcAux true (trimR N.data) = 1) :
    dcAux true (trimL (trimR (A.data ++ N.data))) =
      dcAux true (trimL (trimR A.data)) + 1 := by
  rw [trimR_append_right A.data N.data ⟨'-', hNmem, by decide⟩]
  rw [show trimL (A.data ++ trimR N.data) = trimL A.data ++ trimR N.data from
    dropWhile_append_ex isJsWS A.data (trimR N.data) hAnonws]
  rw [dcAux_append]
  rw [endFlag_of_last_nl _ _ (trimL_getLast? A.data
    (dropWhile_ne_nil_of_ex isJsWS A.data hAnonws) ▸ hAnl)]
  rw [hNdc]
  obtain ⟨dws, hdec, hdws⟩ := trimR_decomp A.data
  have hwit : ∃ c ∈ trimR A.data, isJsWS c = false := by
    rcases hAnonws with ⟨c, hc, hcw⟩
    refine ⟨c, ?_, hcw⟩
    rw [hdec] at hc
    rcases List.mem_append.mp hc with h | h
    · exact h
    · rw [hdws c h] at hcw
      cases hcw
  have hTL : trimL A.data = trimL (trimR A.data) ++ dws := by
    conv_lhs => rw [hdec]
    exact dropWhile_append_ex isJsWS (trimR A.data) dws hwit
  rw [hTL, dcAux_append,
    dcAux_zero dws (fun c hc => ws_ne_dash c (hdws c hc)) _]

theorem bullet_data (f : String) :
    ("- " ++ f ++ "\n").data = '-' :: ' ' :: f.data ++ ['\n'] := by
  rw [strDataAppend, strDataAppend]
  rfl

theorem t4_data :
    ("\nPlease apply these updates based on user feedback:\n").data =
      '\n' :: ("Please apply these updates based on user feedback:\n").data := rfl

theorem t4_tail_dc :
    dcAux true ("Please apply these updates based on user feedback:\n").data = 0 := by
  decide

theorem t4_tail_flag :
    endFlag true ("Please apply these updates based on user feedback:\n").data = true := by
  decide

theorem dc_header_bullet (f : String) (hnl : ¬ '\n' ∈ f.data) :
    dcAux true (trimR (("\nPlease apply these updates based on user feedback:\n" ++
      ("- " ++ f ++ "\n")).data)) = 1 := by
  rw [strDataAppend, bullet_data,
    trimR_append_right ("\nPlease apply these updates based on user feedback:\n").data
      ('-' :: ' ' :: f.data ++ ['\n']) ⟨'-', List.mem_cons_self _ _, by decide⟩,
    t4_data]
  show dcAux true ('\n' :: (("Please apply these updates based on user feedback:\n").data ++
    trimR ('-' :: ' ' :: f.data ++ ['\n']))) = 1
  rw [dcAux]
  rw [show (('\n' : Char) == '\n') = true from rfl]
  rw [dcAux_append, t4_tail_dc, t4_tail_flag, dc_trimmed_bullet f hnl]
  simp

/-- Appending one feedback entry without a newline adds exactly one
dash-started line to the trimmed prompt. -/
theorem dashLineCount_snoc (d ec : String) (gl : Option (List String)) (fb : List String)
    (f : String) (hnl : ¬ '\n' ∈ f.data) :
    dashLineCount (createPrompt d ec gl (fb ++ [f])) =
      dashLineCount (createPrompt d ec gl fb) + 1 := by
  have hdlc : ∀ b : List String, dashLineCount (createPrompt d ec gl b) =
      dcAux true (trimL (trimR (promptBody d ec gl b).data)) := fun b => rfl
  by_cases hfb : fb = []
  · subst hfb
    rw [hdlc, hdlc, List.nil_append, promptBody_append_fb_nil d ec gl f]
    by_cases hA : promptBody d ec gl [] = ""
    · rw [hA, strNilAppend]
      rw [show trimL (trimR ("" : String).data) = [] from rfl]
      rw [show dcAux true [] = 0 from rfl]
      rw [strDataAppend, bullet_data,
        trimR_append_right ("\nPlease apply these updates based on user feedback:\n").data
          ('-' :: ' ' :: f.data ++ ['\n']) ⟨'-', List.mem_cons_self _ _, by decide⟩,
        t4_data]
      show dcAux true (trimL ('\n' ::
        (("Please apply these updates based on user feedback:\n").data ++
          trimR ('-' :: ' ' :: f.data ++ ['\n'])))) = 0 + 1
      rw [trimL_cons_nl]
      rw [show ("Please apply these updates based on user feedback:\n").data =
        'P' :: ("lease apply these updates based on user feedback:\n").data from rfl]
      rw [List.cons_append, trimL_cons_nonws 'P' _ (by decide)]
      rw [show ('P' :: (("lease apply these updates based on user feedback:\n").data ++
        trimR ('-' :: ' ' :: f.data ++ ['\n']))) =
        ("Please apply these updates based on user feedback:\n").data ++
          trimR ('-' :: ' ' :: f.data ++ ['\n']) from rfl]
      rw [dcAux_append, t4_tail_dc, t4_tail_flag, dc_trimmed_bullet f hnl]
    · rw [strDataAppend]
      have h1 := dc_before_after (promptBody d ec gl [])
        ("\nPlease apply these updates based on user feedback:\n" ++ ("- " ++ f ++ "\n"))
        hA ((promptBody_endNl d ec gl []).resolve_left hA)
        ((promptBody_nonws d ec gl []).resolve_left hA)
        (by rw [strDataAppend, bullet_data]
            exact List.mem_append.mpr (Or.inr (List.mem_cons_self _ _)))
        (dc_header_bullet f hnl)
      exact h1
  · rw [hdlc, hdlc, promptBody_append_fb_cons d ec gl fb hfb f]
    have hA : ¬ promptBody d ec gl fb = "" := by
      intro he
      exact hfb (promptBody_empty_fb d ec gl fb he)
    rw [strDataAppend]
    have h1 := dc_before_after (promptBody d ec gl fb) ("- " ++ f ++ "\n")
      hA ((promptBody_endNl d ec gl fb).resolve_left hA)
      ((promptBody_nonws d ec gl fb).resolve_left hA)
      (by rw [bullet_data]; exact List.mem_cons_self _ _)
      (by rw [bullet_data]; exact dc_trimmed_bullet f hnl)
    exact h1

theorem lookup_set_self (st : Store) (k : String) (v : Session) :
    lookupSession (setSession st k v) k = some v := by
  induction st with
  | nil => simp [setSession, lookupSession]
  | cons p t ih =>
    obtain ⟨k', v'⟩ := p
    by_cases hk : k' = k
    · subst hk
      simp [setSession, lookupSession]
    · rw [setSession]
      rw [if_neg hk]
      rw [lookupSession]
      rw [if_neg hk]
      exact ih

theorem lookup_set_other (st : Store) (k j : String) (v : Session) (h : ¬ j = k) :
    lookupSession (setSession st k v) j = lookupSession st j := by
  induction st with
  | nil =>
    simp only [setSession, lookupSession]
    rw [if_neg (fun he => h he.symm)]
  | cons p t ih =>
    obtain ⟨k', v'⟩ := p
    by_cases hk : k' = k
    · subst hk
      rw [setSession, if_pos rfl, lookupSession, lookupSession]
      by_cases hj : k' = j
      · exact absurd hj.symm (by exact fun he => h (he ▸ rfl))
      · rw [if_neg hj, if_neg hj]
    · rw [setSession, if_neg hk, lookupSession, lookupSession]
      by_cases hj : k' = j
      · rw [if_pos hj, if_pos hj]
      · rw [if_neg hj, if_neg hj]
        exact ih

theorem feedbackOf_def (st : Store) (i : String) :
    feedbackOf st i = ((lookupSession st i).map Session.feedback).getD [] := rfl

theorem feedbackStep_success (st : Store) (gl : Option (List String)) (sid fb : String)
    (sess : Session) (hsid : ¬ sid = "") (hs : lookupSession st sid = some sess) :
    feedbackStep st gl (some sid) fb =
      (setSession st sid { sess with feedback := sess.feedback ++ [fb] },
       .ok (buildLovableUrl (createPrompt sess.description sess.extractedContent gl
         (sess.feedback ++ [fb])))) := by
  simp [feedbackStep, hsid, hs]

/-- Every request leaves each session's feedback sequence a prefix of
what it was before plus whatever was appended: nothing is removed,
reordered or deduplicated. -/
theorem feedback_monotone (st : Store) (op : Op) (i : String) :
    List.IsPrefix (feedbackOf st i) (feedbackOf (applyOp st op) i) := by
  cases op with
  | feedback gl sidOpt fb =>
    show List.IsPrefix (feedbackOf st i) (feedbackOf (feedbackStep st gl sidOpt fb).1 i)
    cases sidOpt with
    | none =>
      rw [feedback_unknown_session_rejected st gl none fb (fun s hs => by cases hs)]
      try exact List.prefix_refl _
    | some s =>
      by_cases hs : s = ""
      · rw [feedback_unknown_session_rejected st gl (some s) fb
          (fun s' hs' => by cases hs'; exact Or.inl hs)]
        try exact List.prefix_refl _
      · cases hl : lookupSession st s with
        | none =>
          rw [feedback_unknown_session_rejected st gl (some s) fb
            (fun s' hs' => by cases hs'; exact Or.inr hl)]
          try exact List.prefix_refl _
        | some sess =>
          rw [feedbackStep_success st gl s fb sess hs hl]
          show List.IsPrefix (feedbackOf st i)
            (feedbackOf (setSession st s { sess with feedback := sess.feedback ++ [fb] }) i)
          by_cases hi : i = s
          · subst hi
            rw [feedbackOf_def, feedbackOf_def, lookup_set_self, hl]
            try exact ⟨[fb], rfl⟩
          · rw [feedbackOf_def, feedbackOf_def, lookup_set_other st s i _ hi]
            try exact List.prefix_refl _
  | generate gl d su sid fr eo so =>
    show List.IsPrefix (feedbackOf st i) (feedbackOf (generateStep st gl d su sid fr eo so).1 i)
    unfold generateStep
    generalize hid : (match sid with
      | none => fr
      | some s => if s = "" then fr else s) = id
    cases hl : lookupSession st id with
    | none =>
      simp only [hl]
      by_cases hi : i = id
      · subst hi
        rw [feedbackOf_def, feedbackOf_def, hl, lookup_set_self]
        show List.IsPrefix [] _
        try exact List.nil_prefix
      · rw [feedbackOf_def, feedbackOf_def,
          lookup_set_other _ id i _ hi, lookup_set_other _ id i _ hi]
        try exact List.prefix_refl _
    | some sess =>
      simp only [hl]
      by_cases hi : i = id
      · subst hi
        rw [feedbackOf_def, feedbackOf_def, hl, lookup_set_self]
        simp only [Option.map_some', Option.getD_some]
        try exact List.prefix_refl _
      · rw [feedbackOf_def, feedbackOf_def, lookup_set_other _ id i _ hi]
        try exact List.prefix_refl _

/-- C4 (amended): a successful feedback call appends exactly one entry
to the session's feedback sequence (never reordering or deduplicating
it, and touching no other session), every generate or feedback request
keeps each session's feedback sequence as a prefix of its new value,
and — when the feedback string contains no newline — the regenerated
prompt contains exactly one additional dash-started line.  (Counting
lines that start with the two characters `"- "` instead fails for an
empty feedback string: the final trim strips the trailing space.) -/
theorem feedback_appends_and_prompt (st : Store) (gl : Option (List String))
    (sid : String) (f : String) (sess : Session)
    (hs : lookupSession st sid = some sess) (hsid : ¬ sid = "") :
    (feedbackStep st gl (some sid) f).2 =
      .ok (buildLovableUrl (createPrompt sess.description sess.extractedContent gl
        (sess.feedback ++ [f]))) ∧
    lookupSession (feedbackStep st gl (some sid) f).1 sid =
      some ⟨sess.description, sess.extractedContent, sess.feedback ++ [f]⟩ ∧
    (∀ j, ¬ j = sid →
      lookupSession (feedbackStep st gl (some sid) f).1 j = lookupSession st j) ∧
    (feedbackOf (feedbackStep st gl (some sid) f).1 sid).length =
      (feedbackOf st sid).length + 1 ∧
    (∀ (st' : Store) (op : Op) (i : String),
      List.IsPrefix (feedbackOf st' i) (feedbackOf (applyOp st' op) i)) ∧
    (¬ '\n' ∈ f.data →
      dashLineCount (createPrompt sess.description sess.extractedContent gl
          (sess.feedback ++ [f])) =
        dashLineCount (createPrompt sess.description sess.extractedContent gl
          sess.feedback) + 1) := by
  have hstep := feedbackStep_success st gl sid f sess hsid hs
  refine ⟨?_, ?_, ?_, ?_, feedback_monotone, dashLineCount_snoc _ _ _ _ f⟩
  · rw [hstep]
  · rw [hstep]
    exact lookup_set_self st sid _
  · intro j hj
    rw [hstep]
    exact lookup_set_other st sid j _ hj
  · rw [hstep, feedbackOf_def, feedbackOf_def, lookup_set_self, hs]
    simp

/-- C4 counterexample to the claim as stated: a successful feedback
call with the empty feedback string appends an entry, but the count of
lines starting with `"- "` (dash-space) does not increase — the
appended bullet is trimmed to a bare `-`. -/
theorem feedback_empty_string_no_dash_space_line :
    (feedbackStep [("s", ⟨"", "", []⟩)] none (some "s") "").2 =
      .ok (buildLovableUrl (createPrompt "" "" none [""])) ∧
    (feedbackOf (feedbackStep [("s", ⟨"", "", []⟩)] none (some "s") "").1 "s").length =
      (feedbackOf [("s", ⟨"", "", []⟩)] "s").length + 1 ∧
    dashSpaceLineCount (createPrompt "" "" none [""]) =
      dashSpaceLineCount (createPrompt "" "" none []) := by
  refine ⟨by decide, by decide, by decide⟩

/-- Witness for `feedback_appends_and_prompt` on a concrete store. -/
theorem feedback_appends_and_prompt_witness :
    lookupSession [("s", ⟨"", "", []⟩)] "s" = some ⟨"", "", []⟩ ∧ ¬ ("s" : String) = "" ∧
    lookupSession (feedbackStep [("s", ⟨"", "", []⟩)] none (some "s") "x").1 "s" =
      some ⟨"", "", [] ++ ["x"]⟩ :=
  ⟨by decide, by decide,
   (feedback_appends_and_prompt [("s", ⟨"", "", []⟩)] none "s" "x" ⟨"", "", []⟩
     (by decide) (by decide)).2.1⟩

end WebsiteHandler
